import Mathlib

/-!
Verification of the catalyst map-editor core: symbol resolution, editing-tool
algorithms (line, box, flood fill), bounded undo/redo history with stroke
batching, and serialization.  Definitions are shallow embeddings of the
TypeScript source (`src/services/api.ts`, `src/hooks/useMapEditor.ts`, and the
`MapGrid` canvas component).
-/

namespace Catalyst

/-! ## Grid model

A grid is a list of rows of single-character symbols
(`parseMapgenRows` splits each row string into characters). -/

abbrev Grid := List (List Char)

/-- `MAX_HISTORY` from `useMapEditor.ts`. -/
def MAX_HISTORY : Nat := 50

/-- Embeds `updateGridCell` (api.ts): copy the grid and write `symbol` at
`(row, col)` when the position is in bounds; the copy is returned unchanged
otherwise.  (The JS deep copy is value-identity here.) -/
def updateGridCell (grid : Grid) (row col : Int) (symbol : Char) : Grid :=
  let rowList := grid.getD row.toNat []
  if 0 ≤ row ∧ row < grid.length ∧ 0 ≤ col ∧ col < rowList.length then
    grid.set row.toNat (rowList.set col.toNat symbol)
  else grid

/-- Embeds `gridToRows` (api.ts): join each row back into one string. -/
def gridToRows (grid : Grid) : List String :=
  grid.map (fun row => String.mk row)

/-! ## Box tool (`getBoxCells`, `getBoxOutlineCells` in the MapGrid component) -/

/-- The list `lo, lo+1, …, hi` (empty when `hi < lo`): the iteration space of a
`for (v = lo; v <= hi; v++)` loop. -/
def intRange (lo hi : Int) : List Int :=
  (List.range (hi + 1 - lo).toNat).map (fun (k : Nat) => lo + (k : Int))

/-- Embeds `getBoxCells`: every cell of the axis-aligned rectangle spanned by
the two corners, produced row-major as in the nested loops. -/
def getBoxCells (r0 c0 r1 c1 : Int) : List (Int × Int) :=
  let minRow := min r0 r1
  let maxRow := max r0 r1
  let minCol := min c0 c1
  let maxCol := max c0 c1
  (intRange minRow maxRow).flatMap (fun row =>
    (intRange minCol maxCol).map (fun col => (row, col)))

/-- Embeds `getBoxOutlineCells`: same nested loops, pushing only perimeter
cells. -/
def getBoxOutlineCells (r0 c0 r1 c1 : Int) : List (Int × Int) :=
  let minRow := min r0 r1
  let maxRow := max r0 r1
  let minCol := min c0 c1
  let maxCol := max c0 c1
  (intRange minRow maxRow).flatMap (fun row =>
    (intRange minCol maxCol).flatMap (fun col =>
      if row = minRow ∨ row = maxRow ∨ col = minCol ∨ col = maxCol then
        [(row, col)]
      else []))

/-! Basic facts about `intRange`. -/

theorem mem_intRange {lo hi v : Int} :
    v ∈ intRange lo hi ↔ lo ≤ v ∧ v ≤ hi := by
  unfold intRange
  simp only [List.mem_map, List.mem_range]
  constructor
  · rintro ⟨k, hk, rfl⟩
    omega
  · rintro ⟨h1, h2⟩
    exact ⟨(v - lo).toNat, by omega, by omega⟩

theorem intRange_nodup (lo hi : Int) : (intRange lo hi).Nodup := by
  unfold intRange
  refine (List.nodup_range _).map ?_
  intro a b h
  have h' : lo + (a : Int) = lo + (b : Int) := h
  omega

theorem mem_getBoxCells {r0 c0 r1 c1 : Int} {p : Int × Int} :
    p ∈ getBoxCells r0 c0 r1 c1 ↔
      min r0 r1 ≤ p.1 ∧ p.1 ≤ max r0 r1 ∧ min c0 c1 ≤ p.2 ∧ p.2 ≤ max c0 c1 := by
  unfold getBoxCells
  simp only [List.mem_flatMap, List.mem_map, mem_intRange]
  constructor
  · rintro ⟨row, ⟨h1, h2⟩, col, ⟨h3, h4⟩, rfl⟩
    exact ⟨h1, h2, h3, h4⟩
  · rintro ⟨h1, h2, h3, h4⟩
    exact ⟨p.1, ⟨h1, h2⟩, p.2, ⟨h3, h4⟩, rfl⟩

theorem getBoxCells_nodup (r0 c0 r1 c1 : Int) : (getBoxCells r0 c0 r1 c1).Nodup := by
  unfold getBoxCells
  rw [List.nodup_flatMap]
  refine ⟨fun row _ => ?_, ?_⟩
  · refine (intRange_nodup _ _).map ?_
    intro a b h
    exact (Prod.mk.injEq _ _ _ _ ▸ h).2
  · refine (intRange_nodup (min r0 r1) (max r0 r1)).imp ?_
    intro a b hab
    intro x hxa hxb
    simp only [Function.onFun, List.mem_map] at hxa hxb
    obtain ⟨ca, _, rfl⟩ := hxa
    obtain ⟨cb, _, h⟩ := hxb
    exact hab ((Prod.mk.injEq _ _ _ _ ▸ h).1.symm)

theorem mem_getBoxOutlineCells {r0 c0 r1 c1 : Int} {p : Int × Int} :
    p ∈ getBoxOutlineCells r0 c0 r1 c1 ↔
      (min r0 r1 ≤ p.1 ∧ p.1 ≤ max r0 r1 ∧ min c0 c1 ≤ p.2 ∧ p.2 ≤ max c0 c1) ∧
      (p.1 = min r0 r1 ∨ p.1 = max r0 r1 ∨ p.2 = min c0 c1 ∨ p.2 = max c0 c1) := by
  unfold getBoxOutlineCells
  simp only [List.mem_flatMap, mem_intRange]
  constructor
  · rintro ⟨row, ⟨h1, h2⟩, col, ⟨h3, h4⟩, hp⟩
    by_cases hperim : row = min r0 r1 ∨ row = max r0 r1 ∨ col = min c0 c1 ∨ col = max c0 c1
    · rw [if_pos hperim, List.mem_singleton] at hp
      subst hp
      exact ⟨⟨h1, h2, h3, h4⟩, hperim⟩
    · rw [if_neg hperim] at hp
      exact absurd hp (List.not_mem_nil _)
  · rintro ⟨⟨h1, h2, h3, h4⟩, hperim⟩
    refine ⟨p.1, ⟨h1, h2⟩, p.2, ⟨h3, h4⟩, ?_⟩
    rw [if_pos hperim, List.mem_singleton]

theorem flatMap_sublist_flatMap {α β : Type} {l : List α} {f g : α → List β}
    (h : ∀ a ∈ l, (f a).Sublist (g a)) : (l.flatMap f).Sublist (l.flatMap g) := by
  induction l with
  | nil => simp
  | cons a tl ih =>
    simp only [List.flatMap_cons]
    exact (h a (List.mem_cons_self a tl)).append (ih fun x hx => h x (List.mem_cons_of_mem a hx))

theorem getBoxOutlineCells_sublist (r0 c0 r1 c1 : Int) :
    (getBoxOutlineCells r0 c0 r1 c1).Sublist (getBoxCells r0 c0 r1 c1) := by
  unfold getBoxOutlineCells getBoxCells
  refine flatMap_sublist_flatMap ?_
  intro row _
  induction intRange (min c0 c1) (max c0 c1) with
  | nil => simp
  | cons c cs ih =>
    simp only [List.flatMap_cons, List.map_cons]
    by_cases h : row = min r0 r1 ∨ row = max r0 r1 ∨ c = min c0 c1 ∨ c = max c0 c1
    · rw [if_pos h]
      exact (List.cons_sublist_cons ..).mpr ih
    · rw [if_neg h]
      exact ih.cons _

theorem getBoxOutlineCells_nodup (r0 c0 r1 c1 : Int) :
    (getBoxOutlineCells r0 c0 r1 c1).Nodup :=
  (getBoxCells_nodup r0 c0 r1 c1).sublist (getBoxOutlineCells_sublist r0 c0 r1 c1)

/-- C5: for every pair of corner cells, `getBoxCells` yields exactly every cell
of the axis-aligned rectangle they span and `getBoxOutlineCells` yields exactly
its perimeter cells, both without duplicates; in particular the outline between
(1,1) and (3,3) is exactly the 8 perimeter cells of the 3×3 square (excluding
(2,2)) and the filled box is all 9 cells. -/
theorem box_tool_correct :
    (∀ r0 c0 r1 c1 : Int, ∀ p : Int × Int,
        p ∈ getBoxCells r0 c0 r1 c1 ↔
          min r0 r1 ≤ p.1 ∧ p.1 ≤ max r0 r1 ∧ min c0 c1 ≤ p.2 ∧ p.2 ≤ max c0 c1) ∧
    (∀ r0 c0 r1 c1 : Int, (getBoxCells r0 c0 r1 c1).Nodup) ∧
    (∀ r0 c0 r1 c1 : Int, ∀ p : Int × Int,
        p ∈ getBoxOutlineCells r0 c0 r1 c1 ↔
          (min r0 r1 ≤ p.1 ∧ p.1 ≤ max r0 r1 ∧ min c0 c1 ≤ p.2 ∧ p.2 ≤ max c0 c1) ∧
          (p.1 = min r0 r1 ∨ p.1 = max r0 r1 ∨ p.2 = min c0 c1 ∨ p.2 = max c0 c1)) ∧
    (∀ r0 c0 r1 c1 : Int, (getBoxOutlineCells r0 c0 r1 c1).Nodup) ∧
    getBoxOutlineCells 1 1 3 3 =
      [(1, 1), (1, 2), (1, 3), (2, 1), (2, 3), (3, 1), (3, 2), (3, 3)] ∧
    getBoxCells 1 1 3 3 =
      [(1, 1), (1, 2), (1, 3), (2, 1), (2, 2), (2, 3), (3, 1), (3, 2), (3, 3)] :=
  ⟨fun _ _ _ _ _ => mem_getBoxCells, getBoxCells_nodup,
   fun _ _ _ _ _ => mem_getBoxOutlineCells, getBoxOutlineCells_nodup,
   by decide, by decide⟩

/-! ## Edit session state (`useMapEditor.ts`)

The hook's refs and state are collected into one record; each callback becomes
a pure state transformer.  `historyIndex` is an `Int` because
`historyIndexRef` starts at `-1` after `reset`. -/

structure EditorState where
  grid : Grid
  history : List Grid
  historyIndex : Int
  canUndo : Bool
  canRedo : Bool
  isDirty : Bool
  paintStrokeActive : Bool
  gridBeforeStroke : Option Grid
  deriving DecidableEq, Repr

/-- The state right after `loadEntity` successfully parsed grid `g0`: history
is initialized with the single baseline entry. -/
def loadState (g0 : Grid) : EditorState :=
  { grid := g0, history := [g0], historyIndex := 0, canUndo := false,
    canRedo := false, isDirty := false, paintStrokeActive := false,
    gridBeforeStroke := none }

/-- Embeds `pushHistory`: drop redo states, append a copy of the new grid,
then either evict the oldest entry (history full) or advance the cursor.
`setCanUndo` reads the updated index. -/
def pushHistory (newGrid : Grid) (s : EditorState) : EditorState :=
  let h := s.history.take (s.historyIndex + 1).toNat ++ [newGrid]
  if h.length > MAX_HISTORY then
    { s with history := h.drop 1, canUndo := decide (0 < s.historyIndex),
             canRedo := false }
  else
    { s with history := h, historyIndex := s.historyIndex + 1,
             canUndo := decide (0 < s.historyIndex + 1), canRedo := false }

/-- Embeds `undo`.  (In every reachable state the decremented index is in
range, see `history_bounded_valid`; out-of-range access defaults to `[]`.) -/
def undo (s : EditorState) : EditorState :=
  if 0 < s.historyIndex then
    let i := s.historyIndex - 1
    { s with historyIndex := i, grid := s.history.getD i.toNat [],
             canUndo := decide (0 < i), canRedo := true }
  else s

/-- Embeds `redo`. -/
def redo (s : EditorState) : EditorState :=
  if s.historyIndex < (s.history.length : Int) - 1 then
    let i := s.historyIndex + 1
    { s with historyIndex := i, grid := s.history.getD i.toNat [],
             canUndo := true,
             canRedo := decide (i < (s.history.length : Int) - 1) }
  else s

/-- Embeds `updateCells`.  The source guards the commit with
`newGrid !== prev`, a reference comparison: `updateGridCell` always returns a
freshly allocated array, so after the loop `newGrid` is a new reference
exactly when `cells` is non-empty, regardless of whether any cell value
changed. -/
def updateCells (cells : List (Int × Int × Char)) (s : EditorState) : EditorState :=
  let newGrid := cells.foldl (fun g c => updateGridCell g c.1 c.2.1 c.2.2) s.grid
  if cells.isEmpty then s
  else { pushHistory newGrid s with grid := newGrid, isDirty := true }

/-- Embeds `updateCell` (paint path): capture the pre-stroke snapshot on the
first cell of a stroke, then write the cell on the live grid without touching
history.  `setIsDirty(true)` runs whenever `newGrid !== prev`, which is always
(fresh array). -/
def updateCell (row col : Int) (symbol : Char) (s : EditorState) : EditorState :=
  let s1 := if s.paintStrokeActive then s
            else { s with paintStrokeActive := true,
                          gridBeforeStroke := some s.grid }
  { s1 with grid := updateGridCell s1.grid row col symbol, isDirty := true }

/-- Embeds the changed-cell scan in `commitPaintStroke`:
`before.some((row, ri) => row.some((cell, ci) => cell !== currentGrid[ri]?.[ci]))`;
a missing row or cell (`undefined`) compares unequal to any symbol. -/
def gridChanged (before current : Grid) : Bool :=
  before.enum.any (fun rr =>
    rr.2.enum.any (fun cc =>
      ((current.get? rr.1).bind (fun r => r.get? cc.1)) != some cc.2))

/-- Embeds `commitPaintStroke`: when a stroke is active and a snapshot exists
(a JS array is always truthy), push history only if the grid changed; always
clear the stroke flags. -/
def commitPaintStroke (s : EditorState) : EditorState :=
  let s1 :=
    if s.paintStrokeActive then
      match s.gridBeforeStroke with
      | some before => if gridChanged before s.grid then pushHistory s.grid s else s
      | none => s
    else s
  { s1 with paintStrokeActive := false, gridBeforeStroke := none }

/-- The shared commit path: both `updateCells` (non-empty batch) and
`commitPaintStroke` (changed stroke) append the current live grid, so a commit
is `pushHistory` of the grid that becomes (or already is) the live grid. -/
def commitGrid (g : Grid) (s : EditorState) : EditorState :=
  { pushHistory g s with grid := g }

/-! ### History invariants (C2) -/

/-- Invariant of commit-only runs: the cursor sits on the last retained
entry and the log is bounded. -/
def HistInv (s : EditorState) : Prop :=
  1 ≤ s.history.length ∧ s.history.length ≤ MAX_HISTORY ∧
  s.historyIndex = (s.history.length : Int) - 1

theorem loadState_histInv (g0 : Grid) : HistInv (loadState g0) := by
  refine ⟨by simp [loadState], by simp [loadState, MAX_HISTORY], by simp [loadState]⟩

theorem pushHistory_histInv {s : EditorState} (h : HistInv s) (g : Grid) :
    HistInv (pushHistory g s) := by
  obtain ⟨h1, h2, h3⟩ := h
  unfold pushHistory HistInv MAX_HISTORY at *
  have htake : (s.historyIndex + 1).toNat = s.history.length := by omega
  rw [htake, List.take_length]
  by_cases hfull : (s.history ++ [g]).length > 50
  · rw [if_pos hfull]
    dsimp only
    simp only [List.length_drop, List.length_append, List.length_singleton] at *
    omega
  · rw [if_neg hfull]
    dsimp only
    simp only [List.length_append, List.length_singleton] at *
    omega

theorem commitGrid_histInv {s : EditorState} (h : HistInv s) (g : Grid) :
    HistInv (commitGrid g s) := by
  have := pushHistory_histInv h g
  unfold commitGrid HistInv at *
  simpa using this

theorem foldl_pushHistory_histInv {s : EditorState} (h : HistInv s) (gs : List Grid) :
    HistInv (gs.foldl (fun t g => pushHistory g t) s) := by
  induction gs generalizing s with
  | nil => exact h
  | cons g tl ih => exact ih (pushHistory_histInv h g)

/-- C2: for every sequence of commits, the history never retains more than
`MAX_HISTORY` (= 50) entries, and after each commit the cursor is a valid
index into the retained entries.  (All commit prefixes are covered since `gs`
is arbitrary.) -/
theorem history_bounded_valid (g0 : Grid) (gs : List Grid) :
    (gs.foldl (fun t g => pushHistory g t) (loadState g0)).history.length ≤ MAX_HISTORY ∧
    0 ≤ (gs.foldl (fun t g => pushHistory g t) (loadState g0)).historyIndex ∧
    (gs.foldl (fun t g => pushHistory g t) (loadState g0)).historyIndex <
      ((gs.foldl (fun t g => pushHistory g t) (loadState g0)).history.length : Int) := by
  obtain ⟨h1, h2, h3⟩ := foldl_pushHistory_histInv (loadState_histInv g0) gs
  omega

/-! ### Undo/redo round trip (C3) -/

/-- The live grid sits under the cursor, and the cursor is in range. -/
def CursorInv (s : EditorState) : Prop :=
  0 ≤ s.historyIndex ∧ s.historyIndex < (s.history.length : Int) ∧
  s.grid = s.history.getD s.historyIndex.toNat []

theorem loadState_cursorInv (g0 : Grid) : CursorInv (loadState g0) := by
  refine ⟨by simp [loadState], by simp [loadState], by simp [loadState]⟩

theorem commitGrid_cursorInv {s : EditorState} (h : HistInv s) (g : Grid) :
    CursorInv (commitGrid g s) := by
  obtain ⟨hl, hb, hi⟩ := commitGrid_histInv h g
  refine ⟨by omega, by omega, ?_⟩
  obtain ⟨h1, h2, h3⟩ := h
  show g = _
  unfold commitGrid pushHistory at *
  have htake : (s.historyIndex + 1).toNat = s.history.length := by omega
  rw [htake, List.take_length] at *
  by_cases hfull : (s.history ++ [g]).length > MAX_HISTORY
  · rw [if_pos hfull] at *
    dsimp only at *
    have hlen : ((s.history ++ [g]).drop 1).length = s.history.length := by
      simp only [List.length_drop, List.length_append, List.length_singleton]
      omega
    have hidx : s.historyIndex.toNat + 1 = s.history.length := by omega
    rw [List.getD, List.get?_drop]
    rw [show 1 + s.historyIndex.toNat = s.history.length by omega]
    rw [List.get?_concat_length]
    rfl
  · rw [if_neg hfull] at *
    dsimp only at *
    rw [List.getD]
    rw [show (s.historyIndex + 1).toNat = s.history.length by omega]
    rw [List.get?_concat_length]
    rfl

theorem foldl_commitGrid_inv {s : EditorState} (h : HistInv s) (hc : CursorInv s)
    (gs : List Grid) :
    HistInv (gs.foldl (fun t g => commitGrid g t) s) ∧
    CursorInv (gs.foldl (fun t g => commitGrid g t) s) := by
  induction gs generalizing s with
  | nil => exact ⟨h, hc⟩
  | cons g tl ih => exact ih (commitGrid_histInv h g) (commitGrid_cursorInv h g)

theorem undo_step {t : EditorState} (h : CursorInv t) :
    (undo t).history = t.history ∧
    (undo t).historyIndex = max (t.historyIndex - 1) 0 ∧
    CursorInv (undo t) := by
  obtain ⟨h1, h2, h3⟩ := h
  unfold undo
  by_cases hpos : 0 < t.historyIndex
  · rw [if_pos hpos]
    refine ⟨rfl, by dsimp only; omega, by dsimp only; omega, by dsimp only; omega, rfl⟩
  · rw [if_neg hpos]
    exact ⟨rfl, by omega, h1, h2, h3⟩

theorem redo_step {t : EditorState} (h : CursorInv t) :
    (redo t).history = t.history ∧
    (redo t).historyIndex = min (t.historyIndex + 1) ((t.history.length : Int) - 1) ∧
    CursorInv (redo t) := by
  obtain ⟨h1, h2, h3⟩ := h
  unfold redo
  by_cases hlt : t.historyIndex < (t.history.length : Int) - 1
  · rw [if_pos hlt]
    refine ⟨rfl, by dsimp only; omega, by dsimp only; omega, by dsimp only; omega, rfl⟩
  · rw [if_neg hlt]
    exact ⟨rfl, by omega, h1, h2, h3⟩

theorem undo_iter {s : EditorState} (hc : CursorInv s) (k : Nat) :
    (undo^[k] s).history = s.history ∧
    (undo^[k] s).historyIndex = max (s.historyIndex - k) 0 ∧
    CursorInv (undo^[k] s) := by
  induction k with
  | zero =>
    simp only [Function.iterate_zero_apply]
    refine ⟨by trivial, ?_, hc⟩
    obtain ⟨hc1, _, _⟩ := hc
    push_cast
    omega
  | succ n ih =>
    obtain ⟨ih1, ih2, ihc⟩ := ih
    rw [Function.iterate_succ_apply']
    obtain ⟨st1, st2, stc⟩ := undo_step ihc
    refine ⟨by rw [st1, ih1], ?_, stc⟩
    rw [st2, ih2]
    obtain ⟨hc1, _, _⟩ := hc
    push_cast
    omega

theorem redo_iter {s : EditorState} (hc : CursorInv s) (k : Nat) :
    (redo^[k] s).history = s.history ∧
    (redo^[k] s).historyIndex = min (s.historyIndex + k) ((s.history.length : Int) - 1) ∧
    CursorInv (redo^[k] s) := by
  induction k with
  | zero =>
    simp only [Function.iterate_zero_apply]
    refine ⟨by trivial, ?_, hc⟩
    obtain ⟨_, hc2, _⟩ := hc
    push_cast
    omega
  | succ n ih =>
    obtain ⟨ih1, ih2, ihc⟩ := ih
    rw [Function.iterate_succ_apply']
    obtain ⟨st1, st2, stc⟩ := redo_step ihc
    refine ⟨by rw [st1, ih1], ?_, stc⟩
    rw [st2, ih2, ih1]
    obtain ⟨hc1, hc2, _⟩ := hc
    push_cast
    omega

/-- C3: after any number `N` of commits past the baseline, `undo` ×N then
`redo` ×N (no commit interleaved) restores the live grid exactly. -/
theorem undo_redo_roundtrip (g0 : Grid) (gs : List Grid) :
    (redo^[gs.length] (undo^[gs.length]
        (gs.foldl (fun t g => commitGrid g t) (loadState g0)))).grid =
      (gs.foldl (fun t g => commitGrid g t) (loadState g0)).grid := by
  set s := gs.foldl (fun t g => commitGrid g t) (loadState g0) with hs
  obtain ⟨⟨hl1, hl2, hl3⟩, hc⟩ :=
    foldl_commitGrid_inv (loadState_histInv g0) (loadState_cursorInv g0) gs
  obtain ⟨hu1, hu2, hu3⟩ := undo_iter hc gs.length
  obtain ⟨hr1, hr2, hr3⟩ := redo_iter hu3 gs.length
  obtain ⟨ha1, ha2, ha3⟩ := hr3
  rw [ha3, hr1, hu1]
  obtain ⟨hcx, hcy, hcz⟩ := hc
  rw [hcz]
  congr 1
  rw [hr2, hu2, hu1]
  omega

/-! ### Batch updates and history commits (C7) -/

theorem pushHistory_history_eq {s : EditorState} (h : HistInv s) (g : Grid) :
    (pushHistory g s).history =
      if MAX_HISTORY ≤ s.history.length then (s.history ++ [g]).drop 1
      else s.history ++ [g] := by
  obtain ⟨h1, h2, h3⟩ := h
  unfold pushHistory MAX_HISTORY at *
  have htake : (s.historyIndex + 1).toNat = s.history.length := by omega
  rw [htake, List.take_length]
  by_cases hfull : (s.history ++ [g]).length > 50
  · rw [if_pos hfull]
    simp only [List.length_append, List.length_singleton] at hfull
    rw [if_pos (by omega)]
  · rw [if_neg hfull]
    simp only [List.length_append, List.length_singleton] at hfull
    rw [if_neg (by omega)]

theorem getLast?_append_singleton (l : List α) (g : α) :
    (l ++ [g]).getLast? = some g := by
  rw [List.getLast?_append_of_ne_nil _ (by simp)]
  rfl

theorem getLast?_drop_one_append {l : List α} (g : α) (h : l ≠ []) :
    ((l ++ [g]).drop 1).getLast? = some g := by
  rw [List.drop_append_of_le_length (by cases l <;> simp_all), ]
  exact getLast?_append_singleton _ g

theorem pushHistory_getLast? {s : EditorState} (h : HistInv s) (g : Grid) :
    (pushHistory g s).history.getLast? = some g := by
  rw [pushHistory_history_eq h g]
  by_cases hfull : MAX_HISTORY ≤ s.history.length
  · rw [if_pos hfull]
    obtain ⟨h1, _, _⟩ := h
    exact getLast?_drop_one_append g (by intro hnil; rw [hnil] at h1; simp at h1)
  · rw [if_neg hfull]
    exact getLast?_append_singleton _ g

theorem pushHistory_length {s : EditorState} (h : HistInv s) (g : Grid) :
    (pushHistory g s).history.length =
      if MAX_HISTORY ≤ s.history.length then s.history.length
      else s.history.length + 1 := by
  rw [pushHistory_history_eq h g]
  by_cases hfull : MAX_HISTORY ≤ s.history.length
  · rw [if_pos hfull, if_pos hfull]
    simp
  · rw [if_neg hfull, if_neg hfull]
    simp

/-- C7 counterexample: writing the symbol a cell already holds leaves the grid
contents unchanged, yet `updateCells` still appends a history entry — the
`newGrid !== prev` guard is a reference comparison and `updateGridCell` always
allocates. -/
theorem updateCells_value_noop_still_commits :
    (updateCells [(0, 0, 'a')] (loadState [['a']])).grid = (loadState [['a']]).grid ∧
    (updateCells [(0, 0, 'a')] (loadState [['a']])).history.length =
      (loadState [['a']]).history.length + 1 := by
  constructor
  · decide
  · decide

/-- C7 (amended): a completed batch action leaves the grid contents unchanged
when every written cell is out of bounds or already holds the written symbol,
and an empty batch is a complete no-op; but a non-empty batch always appends a
history entry (evicting the oldest entry when full), even when no cell value
changed. -/
theorem updateCells_amended (s : EditorState) (cells : List (Int × Int × Char)) :
    (cells = [] → updateCells cells s = s) ∧
    ((∀ c ∈ cells, updateGridCell s.grid c.1 c.2.1 c.2.2 = s.grid) →
        (updateCells cells s).grid = s.grid) ∧
    (cells ≠ [] → HistInv s →
        (updateCells cells s).history.length =
          (if MAX_HISTORY ≤ s.history.length then s.history.length
           else s.history.length + 1) ∧
        (updateCells cells s).history.getLast? = some ((updateCells cells s).grid)) := by
  have hfold : ∀ (h : ∀ c ∈ cells, updateGridCell s.grid c.1 c.2.1 c.2.2 = s.grid),
      cells.foldl (fun g c => updateGridCell g c.1 c.2.1 c.2.2) s.grid = s.grid := by
    intro h
    induction cells with
    | nil => rfl
    | cons c tl ih =>
      simp only [List.foldl_cons]
      rw [h c (List.mem_cons_self c tl)]
      exact ih (fun x hx => h x (List.mem_cons_of_mem c hx))
  refine ⟨?_, ?_, ?_⟩
  · intro hnil
    subst hnil
    rfl
  · intro h
    unfold updateCells
    cases cells with
    | nil => rfl
    | cons c tl =>
      dsimp only
      rw [if_neg (by simp)]
      exact hfold h
  · intro hne hinv
    unfold updateCells
    rw [if_neg (by simpa using hne)]
    dsimp only
    exact ⟨pushHistory_length hinv _, pushHistory_getLast? hinv _⟩

/-! ### Paint-stroke batching (C10) -/

/-- Row-wise shape equality: same rows at every index, with the same length. -/
def SameShape (g g' : Grid) : Prop :=
  ∀ i : Nat, (g.get? i).map List.length = (g'.get? i).map List.length

theorem sameShape_refl (g : Grid) : SameShape g g := fun _ => rfl

theorem sameShape_trans {a b c : Grid} (h1 : SameShape a b) (h2 : SameShape b c) :
    SameShape a c := fun i => (h1 i).trans (h2 i)

theorem updateGridCell_sameShape (g : Grid) (r c : Int) (sym : Char) :
    SameShape g (updateGridCell g r c sym) := by
  intro i
  unfold updateGridCell
  by_cases hb : 0 ≤ r ∧ r < (g.length : Int) ∧ 0 ≤ c ∧ c < ((g.getD r.toNat []).length : Int)
  · rw [if_pos hb]
    obtain ⟨hb1, hb2, _, _⟩ := hb
    by_cases hi : i = r.toNat
    · subst hi
      rw [List.get?_eq_getElem?, List.get?_eq_getElem?,
          List.getElem?_set_eq_of_lt _ (by omega)]
      have hget : g[r.toNat]? = some (g.getD r.toNat []) := by
        rw [List.getD_eq_getElem?_getD]
        cases hgi : g[r.toNat]? with
        | none =>
          rw [List.getElem?_eq_none_iff] at hgi
          omega
        | some row => rfl
      rw [hget]
      simp
    · rw [List.get?_eq_getElem?, List.get?_eq_getElem?,
          List.getElem?_set_ne (fun hh => hi hh.symm)]
  · rw [if_neg hb]

theorem foldl_updateGridCell_sameShape (cells : List (Int × Int × Char)) (g : Grid) :
    SameShape g (cells.foldl (fun h c => updateGridCell h c.1 c.2.1 c.2.2) g) := by
  induction cells generalizing g with
  | nil => exact sameShape_refl g
  | cons c tl ih =>
    exact sameShape_trans (updateGridCell_sameShape g c.1 c.2.1 c.2.2) (ih _)

theorem gridChanged_eq_false_iff {before current : Grid}
    (h : SameShape before current) : gridChanged before current = false ↔ before = current := by
  unfold gridChanged
  rw [← Bool.not_eq_true, List.any_eq_true]
  simp only [List.any_eq_true, bne_iff_ne, ne_eq, not_exists, not_and, not_not]
  constructor
  · intro hall
    refine List.ext_get?_iff.mpr fun i => ?_
    cases hb : before.get? i with
    | none =>
      have := h i
      rw [hb] at this
      cases hc : current.get? i with
      | none => rfl
      | some row =>
        rw [hc] at this
        simp at this
    | some row =>
      have hshape := h i
      rw [hb] at hshape
      cases hc : current.get? i with
      | none =>
        rw [hc] at hshape
        simp at hshape
      | some row' =>
        rw [hc] at hshape
        simp only [Option.map_some'] at hshape
        have hlen : row.length = row'.length := by simpa using hshape
        refine congrArg some (List.ext_get?_iff.mpr fun j => ?_)
        cases hr : row.get? j with
        | none =>
          rw [List.get?_eq_getElem?] at hr ⊢
          rw [List.getElem?_eq_none_iff] at hr
          symm
          rw [List.getElem?_eq_none_iff]
          omega
        | some cell =>
          have hmem1 : (i, row) ∈ before.enum := by
            rw [List.mem_enum_iff_getElem?]
            rw [List.get?_eq_getElem?] at hb
            exact hb
          have hmem2 : (j, cell) ∈ row.enum := by
            rw [List.mem_enum_iff_getElem?]
            rw [List.get?_eq_getElem?] at hr
            exact hr
          have hcur := hall (i, row) hmem1 (j, cell) hmem2
          rw [hc] at hcur
          simpa using hcur.symm
  · rintro rfl
    intro rr hrr cc hcc
    rw [List.mem_enum_iff_getElem?] at hrr hcc
    rw [List.get?_eq_getElem?, hrr]
    simpa using hcc

/-- `updateCell` during an active stroke only rewrites the live grid and the
dirty flag. -/
theorem foldl_updateCell_active (us : List (Int × Int × Char)) :
    ∀ t : EditorState, t.paintStrokeActive = true →
    (us.foldl (fun x u => updateCell u.1 u.2.1 u.2.2 x) t).history = t.history ∧
    (us.foldl (fun x u => updateCell u.1 u.2.1 u.2.2 x) t).historyIndex = t.historyIndex ∧
    (us.foldl (fun x u => updateCell u.1 u.2.1 u.2.2 x) t).paintStrokeActive = true ∧
    (us.foldl (fun x u => updateCell u.1 u.2.1 u.2.2 x) t).gridBeforeStroke =
      t.gridBeforeStroke ∧
    (us.foldl (fun x u => updateCell u.1 u.2.1 u.2.2 x) t).grid =
      us.foldl (fun g u => updateGridCell g u.1 u.2.1 u.2.2) t.grid := by
  induction us with
  | nil => exact fun t ht => ⟨rfl, rfl, ht, rfl, rfl⟩
  | cons u tl ih =>
    intro t ht
    simp only [List.foldl_cons]
    have hstep : updateCell u.1 u.2.1 u.2.2 t =
        { t with grid := updateGridCell t.grid u.1 u.2.1 u.2.2, isDirty := true } := by
      unfold updateCell
      rw [if_pos ht]
    rw [hstep]
    exact ih _ ht

/-- C10: starting from an idle state, a sequence of `updateCell` paint updates
touches no history, and the closing `commitPaintStroke` appends exactly one
entry when the grid differs from the pre-stroke snapshot and none when it is
unchanged. -/
theorem paint_stroke_batches_once (s : EditorState) (us : List (Int × Int × Char))
    (hidle : s.paintStrokeActive = false) (hsnap : s.gridBeforeStroke = none)
    (hinv : HistInv s) :
    (us.foldl (fun x u => updateCell u.1 u.2.1 u.2.2 x) s).history = s.history ∧
    ((us.foldl (fun x u => updateCell u.1 u.2.1 u.2.2 x) s).grid = s.grid →
        (commitPaintStroke (us.foldl (fun x u => updateCell u.1 u.2.1 u.2.2 x) s)).history =
          s.history) ∧
    ((us.foldl (fun x u => updateCell u.1 u.2.1 u.2.2 x) s).grid ≠ s.grid →
        (commitPaintStroke (us.foldl (fun x u => updateCell u.1 u.2.1 u.2.2 x) s)).history =
          (if MAX_HISTORY ≤ s.history.length then
             (s.history ++ [(us.foldl (fun x u => updateCell u.1 u.2.1 u.2.2 x) s).grid]).drop 1
           else s.history ++ [(us.foldl (fun x u => updateCell u.1 u.2.1 u.2.2 x) s).grid])) := by
  cases us with
  | nil =>
    refine ⟨rfl, fun _ => ?_, fun hne => absurd rfl hne⟩
    show (commitPaintStroke s).history = s.history
    unfold commitPaintStroke
    rw [hidle]
    simp
  | cons u tl =>
    have hstep0 : updateCell u.1 u.2.1 u.2.2 s =
        { s with paintStrokeActive := true, gridBeforeStroke := some s.grid,
                 grid := updateGridCell s.grid u.1 u.2.1 u.2.2, isDirty := true } := by
      unfold updateCell
      rw [hidle]
      rfl
    simp only [List.foldl_cons, hstep0]
    obtain ⟨hh, hi, ha, hb, hg⟩ := foldl_updateCell_active tl
      { s with paintStrokeActive := true, gridBeforeStroke := some s.grid,
               grid := updateGridCell s.grid u.1 u.2.1 u.2.2, isDirty := true } rfl
    set sf := tl.foldl (fun x u => updateCell u.1 u.2.1 u.2.2 x)
      { s with paintStrokeActive := true, gridBeforeStroke := some s.grid,
               grid := updateGridCell s.grid u.1 u.2.1 u.2.2, isDirty := true } with hsf
    have hb' : sf.gridBeforeStroke = some s.grid := hb
    have hg' : sf.grid =
        tl.foldl (fun g u => updateGridCell g u.1 u.2.1 u.2.2)
          (updateGridCell s.grid u.1 u.2.1 u.2.2) := hg
    have hshape : SameShape s.grid sf.grid := by
      rw [hg']
      exact sameShape_trans (updateGridCell_sameShape s.grid u.1 u.2.1 u.2.2)
        (foldl_updateGridCell_sameShape tl _)
    have hcommit : commitPaintStroke sf =
        { (if gridChanged s.grid sf.grid then pushHistory sf.grid sf else sf) with
          paintStrokeActive := false, gridBeforeStroke := none } := by
      unfold commitPaintStroke
      rw [ha, hb']
      rfl
    refine ⟨hh, ?_, ?_⟩
    · intro heq
      have hfalse : gridChanged s.grid sf.grid = false :=
        (gridChanged_eq_false_iff hshape).2 heq.symm
      rw [hcommit, hfalse]
      rw [if_neg Bool.false_ne_true]
      exact hh
    · intro hne
      have htrue : gridChanged s.grid sf.grid = true := by
        cases hch : gridChanged s.grid sf.grid
        · exact absurd ((gridChanged_eq_false_iff hshape).1 hch).symm hne
        · rfl
      rw [hcommit, htrue]
      rw [if_pos rfl]
      have hinv' : HistInv sf := by
        unfold HistInv at hinv ⊢
        rw [hh, hi]
        exact hinv
      show (pushHistory sf.grid sf).history = _
      rw [pushHistory_history_eq hinv' sf.grid, hh]

/-- Witness for `updateCells_amended` at a concrete input. -/
theorem updateCells_amended_witness :
    updateCells [] (loadState [['a']]) = loadState [['a']] ∧
    (updateCells [((0 : Int), (0 : Int), 'b')] (loadState [['a']])).history.length =
      (if MAX_HISTORY ≤ (loadState [['a']]).history.length then
         (loadState [['a']]).history.length
       else (loadState [['a']]).history.length + 1) ∧
    (updateCells [((0 : Int), (0 : Int), 'b')] (loadState [['a']])).history.getLast? =
      some ((updateCells [((0 : Int), (0 : Int), 'b')] (loadState [['a']])).grid) := by
  refine ⟨(updateCells_amended (loadState [['a']]) []).1 rfl, ?_, ?_⟩
  · exact ((updateCells_amended (loadState [['a']]) [((0 : Int), (0 : Int), 'b')]).2.2
      (by decide) (loadState_histInv _)).1
  · exact ((updateCells_amended (loadState [['a']]) [((0 : Int), (0 : Int), 'b')]).2.2
      (by decide) (loadState_histInv _)).2

/-- Witness for `paint_stroke_batches_once` at a concrete input. -/
theorem paint_stroke_batches_once_witness :
    ([((0 : Int), (0 : Int), 'b')].foldl (fun x u => updateCell u.1 u.2.1 u.2.2 x)
        (loadState [['a']])).history = (loadState [['a']]).history ∧
    (commitPaintStroke ([((0 : Int), (0 : Int), 'b')].foldl
        (fun x u => updateCell u.1 u.2.1 u.2.2 x) (loadState [['a']]))).history =
      (if MAX_HISTORY ≤ (loadState [['a']]).history.length then
         ((loadState [['a']]).history ++
           [([((0 : Int), (0 : Int), 'b')].foldl (fun x u => updateCell u.1 u.2.1 u.2.2 x)
               (loadState [['a']])).grid]).drop 1
       else (loadState [['a']]).history ++
         [([((0 : Int), (0 : Int), 'b')].foldl (fun x u => updateCell u.1 u.2.1 u.2.2 x)
             (loadState [['a']])).grid]) :=
  ⟨(paint_stroke_batches_once (loadState [['a']]) [((0 : Int), (0 : Int), 'b')]
      rfl rfl (loadState_histInv _)).1,
   (paint_stroke_batches_once (loadState [['a']]) [((0 : Int), (0 : Int), 'b')]
      rfl rfl (loadState_histInv _)).2.2 (by decide)⟩

/-! ## Symbol resolution (`resolveSymbolMappings` and friends in api.ts) -/

/-- A JSON value as far as `extractFirstId` inspects it: a string, an array,
or anything else. -/
inductive JsonVal where
  | str (s : String)
  | arr (elems : List JsonVal)
  | other

/-- Embeds `extractFirstId`: a value may be one id, a list of ids, or a list
of `[id, weight]` pairs; take the first concrete id, else null. -/
def extractFirstId : JsonVal → Option String
  | .str s => some s
  | .arr (first :: _) =>
    match first with
    | .str s => some s
    | .arr (.str s :: _) => some s
    | _ => none
  | _ => none

inductive PaletteSource where
  | inline
  | external (id : String)
  deriving DecidableEq, Repr

/-- `SymbolMapping` from types.ts (palette entry). -/
structure SymbolMapping where
  symbol : String
  terrain : Option String
  furniture : Option String
  deriving DecidableEq, Repr

/-- `PaletteData` from types.ts. -/
structure PaletteData where
  id : String
  mappings : List SymbolMapping
  includes : List String
  deriving DecidableEq, Repr

/-- `ResolvedSymbol` from types.ts. -/
structure ResolvedSymbol where
  symbol : String
  terrain : Option String
  furniture : Option String
  source : PaletteSource
  deriving DecidableEq, Repr

/-- JS truthiness of a `string | null | undefined` value: null, undefined and
the empty string are falsy. -/
def strTruthy : Option String → Bool
  | none => false
  | some s => !(s == "")

/-- The `resolved` JS `Map`, as an insertion-ordered association list keyed by
`symbol`. -/
abbrev ResMap := List ResolvedSymbol

/-- `Map.get`. -/
def mapGet (m : ResMap) (sym : String) : Option ResolvedSymbol :=
  m.find? (fun e => e.symbol == sym)

/-- `Map.set`: update in place when the key exists, else append. -/
def mapSet (m : ResMap) (e : ResolvedSymbol) : ResMap :=
  if m.any (fun x => x.symbol == e.symbol) then
    m.map (fun x => if x.symbol == e.symbol then e else x)
  else m ++ [e]

/-- Embeds the body of `applyPalette`'s loop for one mapping: overwrite the
truthy fields of an existing entry (and its source), or insert the raw
mapping. -/
def applyMapping (m : ResMap) (src : PaletteSource) (mp : SymbolMapping) : ResMap :=
  match mapGet m mp.symbol with
  | some existing =>
    let e1 := if strTruthy mp.terrain then { existing with terrain := mp.terrain } else existing
    let e2 := if strTruthy mp.furniture then { e1 with furniture := mp.furniture } else e1
    mapSet m { e2 with source := src }
  | none =>
    mapSet m { symbol := mp.symbol, terrain := mp.terrain,
               furniture := mp.furniture, source := src }

/-- Embeds `applyPalette`. -/
def applyPalette (m : ResMap) (palette : PaletteData) (src : PaletteSource) : ResMap :=
  palette.mappings.foldl (fun acc mp => applyMapping acc src mp) m

/-- The `object` field of a mapgen record (api.ts `MapgenJson`), with the
fields resolution and serialization read.  `Record` fields are
insertion-ordered association lists; `none` is an absent (undefined) field. -/
structure MapgenObject where
  fill_ter : Option String
  rows : Option (List String)
  terrain : Option (List (String × JsonVal))
  furniture : Option (List (String × JsonVal))
  palettes : Option (List String)

structure MapgenJson where
  object : Option MapgenObject

def emptyObject : MapgenObject :=
  { fill_ter := none, rows := none, terrain := none, furniture := none, palettes := none }

/-- Step 3a of `resolveSymbolMappings`: apply the inline terrain overrides. -/
def applyInlineTerrain (m : ResMap) (entries : List (String × JsonVal)) : ResMap :=
  entries.foldl (fun acc kv =>
    let terrainId := extractFirstId kv.2
    match mapGet acc kv.1 with
    | some existing =>
        mapSet acc { existing with terrain := terrainId, source := PaletteSource.inline }
    | none =>
        mapSet acc { symbol := kv.1, terrain := terrainId, furniture := none,
                     source := PaletteSource.inline }) m

/-- Step 3b: apply the inline furniture overrides; the source flips to inline
only when it was external. -/
def applyInlineFurniture (m : ResMap) (entries : List (String × JsonVal)) : ResMap :=
  entries.foldl (fun acc kv =>
    let furnitureId := extractFirstId kv.2
    match mapGet acc kv.1 with
    | some existing =>
        let e1 := { existing with furniture := furnitureId }
        let e2 := match e1.source with
                  | PaletteSource.external _ => { e1 with source := PaletteSource.inline }
                  | _ => e1
        mapSet acc e2
    | none =>
        mapSet acc { symbol := kv.1, terrain := none, furniture := furnitureId,
                     source := PaletteSource.inline }) m

/-- Step 4: synthesize entries for symbols observed in the rows. -/
def collectRowSymbols (m : ResMap) (fillTer : Option String) (rows : List String) : ResMap :=
  rows.foldl (fun acc row =>
    row.toList.foldl (fun acc2 ch =>
      let sym := String.mk [ch]
      if (mapGet acc2 sym).isSome then acc2
      else mapSet acc2 { symbol := sym,
                         terrain := if strTruthy fillTer then fillTer else none,
                         furniture := none, source := PaletteSource.inline }) acc) m

/-- Lexicographic comparison of the symbols' character lists, the model of
`a.symbol.localeCompare(b.symbol) <= 0` (a total order on the distinct keys;
no claim depends on the order among distinct symbols). -/
def charListLe : List Char → List Char → Bool
  | [], _ => true
  | _ :: _, [] => false
  | a :: as, b :: bs =>
    if a = b then charListLe as bs
    else decide (a < b)

/-- Embeds `resolveSymbolMappings`.  The final `localeCompare` sort is modeled
as an insertion sort by the symbol's lexicographic order. -/
def resolveSymbolMappings (json : MapgenJson)
    (externalPalettes : List (String × PaletteData)) : List ResolvedSymbol :=
  match json.object with
  | none => []
  | some obj =>
    let m0 : ResMap :=
      if strTruthy obj.fill_ter then
        mapSet (mapSet [] { symbol := " ", terrain := obj.fill_ter, furniture := none,
                            source := PaletteSource.inline })
               { symbol := ".", terrain := obj.fill_ter, furniture := none,
                 source := PaletteSource.inline }
      else []
    let m1 := (obj.palettes.getD []).foldl (fun acc pid =>
      match externalPalettes.find? (fun kv => kv.1 == pid) with
      | some kv => applyPalette acc kv.2 (PaletteSource.external pid)
      | none => acc) m0
    let m2 := match obj.terrain with
      | some entries => applyInlineTerrain m1 entries
      | none => m1
    let m3 := match obj.furniture with
      | some entries => applyInlineFurniture m2 entries
      | none => m2
    let m4 := collectRowSymbols m3 obj.fill_ter (obj.rows.getD [])
    m4.insertionSort (fun a b => charListLe a.symbol.data b.symbol.data = true)

/-! ### Pointwise behavior of the resolution map (C1) -/

theorem find?_cons_pos {α : Type} (p : α → Bool) (a : α) (l : List α) (h : p a = true) :
    (a :: l).find? p = some a := by
  simp [List.find?_cons, h]

theorem find?_cons_neg {α : Type} (p : α → Bool) (a : α) (l : List α) (h : p a = false) :
    (a :: l).find? p = l.find? p := by
  simp [List.find?_cons, h]

theorem mapGet_eq_symbol {m : ResMap} {s : String} {e : ResolvedSymbol}
    (h : mapGet m s = some e) : e.symbol = s := by
  unfold mapGet at h
  have := List.find?_some h
  simpa using this

theorem find?_map_set_of_ne {e : ResolvedSymbol} {s : String} (hne : e.symbol ≠ s)
    (xs : ResMap) :
    (xs.map (fun x => if x.symbol == e.symbol then e else x)).find?
        (fun y => y.symbol == s) =
      xs.find? (fun y => y.symbol == s) := by
  induction xs with
  | nil => rfl
  | cons x tl ih =>
    simp only [List.map_cons]
    by_cases hx : (x.symbol == e.symbol) = true
    · rw [if_pos hx]
      have hxs : (x.symbol == s) = false := by
        rw [beq_iff_eq] at hx
        simp [hx, hne]
      rw [find?_cons_neg (fun y => y.symbol == s) e _ (by simp [hne]),
          find?_cons_neg (fun y => y.symbol == s) x _ hxs]
      exact ih
    · rw [if_neg hx]
      by_cases hq : (x.symbol == s) = true
      · rw [find?_cons_pos (fun y => y.symbol == s) x _ hq,
            find?_cons_pos (fun y => y.symbol == s) x _ hq]
      · rw [find?_cons_neg (fun y => y.symbol == s) x _ (by simpa using hq),
            find?_cons_neg (fun y => y.symbol == s) x _ (by simpa using hq)]
        exact ih

theorem find?_map_set_of_any {e : ResolvedSymbol} (xs : ResMap)
    (hany : xs.any (fun x => x.symbol == e.symbol) = true) :
    (xs.map (fun x => if x.symbol == e.symbol then e else x)).find?
        (fun y => y.symbol == e.symbol) = some e := by
  induction xs with
  | nil => simp at hany
  | cons x tl ih =>
    simp only [List.map_cons]
    by_cases hx : (x.symbol == e.symbol) = true
    · rw [if_pos hx]
      rw [find?_cons_pos (fun y => y.symbol == e.symbol) e _ (by simp)]
    · rw [if_neg hx]
      rw [find?_cons_neg (fun y => y.symbol == e.symbol) x _ (by simpa using hx)]
      apply ih
      simp only [List.any_cons, Bool.or_eq_true] at hany
      rcases hany with h | h
      · exact absurd h hx
      · exact h

/-- `Map.set` then `Map.get`: the written key reads back the written entry,
every other key is untouched. -/
theorem mapGet_mapSet (m : ResMap) (e : ResolvedSymbol) (s : String) :
    mapGet (mapSet m e) s = if e.symbol = s then some e else mapGet m s := by
  unfold mapGet mapSet
  by_cases hes : e.symbol = s
  · rw [if_pos hes]
    by_cases hany : m.any (fun x => x.symbol == e.symbol) = true
    · rw [if_pos hany]
      subst hes
      exact find?_map_set_of_any m hany
    · rw [if_neg hany]
      rw [List.find?_append]
      have hnone : m.find? (fun y => y.symbol == s) = none := by
        rw [List.find?_eq_none]
        intro x hx
        intro hq
        refine hany ?_
        rw [List.any_eq_true]
        rw [beq_iff_eq] at hq
        exact ⟨x, hx, by simp [hq, hes]⟩
      rw [hnone]
      simp [hes]
  · rw [if_neg hes]
    by_cases hany : m.any (fun x => x.symbol == e.symbol) = true
    · rw [if_pos hany]
      exact find?_map_set_of_ne hes m
    · rw [if_neg hany]
      rw [List.find?_append]
      cases hm : m.find? (fun y => y.symbol == s) with
      | some a => rfl
      | none => simp [hes]

/-- Pointwise denotation of one palette-mapping application. -/
def applyMappingAt (src : PaletteSource) (cur : Option ResolvedSymbol)
    (mp : SymbolMapping) : ResolvedSymbol :=
  match cur with
  | some e =>
    { e with terrain := if strTruthy mp.terrain then mp.terrain else e.terrain,
             furniture := if strTruthy mp.furniture then mp.furniture else e.furniture,
             source := src }
  | none => { symbol := mp.symbol, terrain := mp.terrain,
              furniture := mp.furniture, source := src }

theorem mapGet_applyMapping (m : ResMap) (src : PaletteSource) (mp : SymbolMapping)
    (s : String) :
    mapGet (applyMapping m src mp) s =
      if mp.symbol = s then some (applyMappingAt src (mapGet m s) mp)
      else mapGet m s := by
  cases hget : mapGet m mp.symbol with
  | some existing =>
    have hsym : existing.symbol = mp.symbol := mapGet_eq_symbol hget
    have hstep : applyMapping m src mp = mapSet m
        { symbol := existing.symbol,
          terrain := if strTruthy mp.terrain then mp.terrain else existing.terrain,
          furniture := if strTruthy mp.furniture then mp.furniture else existing.furniture,
          source := src } := by
      unfold applyMapping
      rw [hget]
      by_cases ht : strTruthy mp.terrain = true <;>
        by_cases hf : strTruthy mp.furniture = true <;>
        simp [ht, hf]
    rw [hstep, mapGet_mapSet]
    by_cases hms : mp.symbol = s
    · rw [if_pos (hsym.trans hms), if_pos hms]
      subst hms
      rw [hget]
      rfl
    · rw [if_neg (fun h => hms (hsym.symm.trans h)), if_neg hms]
  | none =>
    have hstep : applyMapping m src mp = mapSet m
        { symbol := mp.symbol, terrain := mp.terrain,
          furniture := mp.furniture, source := src } := by
      unfold applyMapping
      rw [hget]
    rw [hstep, mapGet_mapSet]
    by_cases hms : mp.symbol = s
    · rw [if_pos hms, if_pos hms]
      subst hms
      rw [hget]
      rfl
    · rw [if_neg hms, if_neg hms]

theorem mapGet_applyPalette_of_filter_nil (m : ResMap) (src : PaletteSource)
    (s : String) :
    ∀ mps : List SymbolMapping, mps.filter (fun x => x.symbol == s) = [] →
    mapGet (mps.foldl (fun acc mp => applyMapping acc src mp) m) s = mapGet m s := by
  intro mps
  induction mps generalizing m with
  | nil => intro _; rfl
  | cons mp tl ih =>
    intro hfilter
    rw [List.filter_cons] at hfilter
    by_cases hx : (mp.symbol == s) = true
    · rw [if_pos hx] at hfilter
      simp at hfilter
    · rw [if_neg hx] at hfilter
      simp only [List.foldl_cons]
      rw [ih _ hfilter, mapGet_applyMapping]
      rw [if_neg (by simpa using hx)]

theorem mapGet_applyPalette_of_filter_single (m : ResMap) (src : PaletteSource)
    (s : String) (mp : SymbolMapping) :
    ∀ mps : List SymbolMapping, mps.filter (fun x => x.symbol == s) = [mp] →
    mapGet (mps.foldl (fun acc mp => applyMapping acc src mp) m) s =
      some (applyMappingAt src (mapGet m s) mp) := by
  intro mps
  induction mps generalizing m with
  | nil => intro h; simp at h
  | cons hd tl ih =>
    intro hfilter
    rw [List.filter_cons] at hfilter
    by_cases hx : (hd.symbol == s) = true
    · rw [if_pos hx] at hfilter
      have hhd : hd = mp := by
        have := List.cons.injEq hd (tl.filter (fun x => x.symbol == s)) mp [] ▸ hfilter
        exact (List.cons.inj hfilter).1
      have htl : tl.filter (fun x => x.symbol == s) = [] := (List.cons.inj hfilter).2
      subst hhd
      simp only [List.foldl_cons]
      rw [mapGet_applyPalette_of_filter_nil _ src s tl htl]
      rw [mapGet_applyMapping]
      rw [if_pos (by simpa using hx)]
    · rw [if_neg hx] at hfilter
      simp only [List.foldl_cons]
      rw [ih _ hfilter, mapGet_applyMapping]
      rw [if_neg (by simpa using hx)]

/-- The concrete precedence scenario: fill-default `t_floor`, one external
palette `P1` mapping `a` to `t_wall`, inline terrain override `{a: t_door}`.
Constructor order: fill_ter, rows, terrain, furniture, palettes. -/
def precedenceMapgen : MapgenJson :=
  ⟨some ⟨some "t_floor", none, some [("a", JsonVal.str "t_door")], none, some ["P1"]⟩⟩

def precedenceP1 : PaletteData :=
  ⟨"P1", [⟨"a", some "t_wall", none⟩], []⟩

/-- C1: inline > later palette > earlier palette > fill-default.  With
fill-default terrain `t_floor`, external palette `P1` mapping `a → t_wall`,
and inline override `{a: t_door}`, symbol `a` resolves to terrain `t_door`;
and in general a later palette overwrites an already-defined symbol's terrain
and furniture fields independently per field (a field it does not supply
keeps the earlier entry's value), taking over the entry's provenance. -/
theorem symbol_resolution_precedence :
    (resolveSymbolMappings precedenceMapgen [("P1", precedenceP1)] =
      [⟨" ", some "t_floor", none, PaletteSource.inline⟩,
       ⟨".", some "t_floor", none, PaletteSource.inline⟩,
       ⟨"a", some "t_door", none, PaletteSource.inline⟩]) ∧
    (∀ (m1 : ResMap) (p2 : PaletteData) (src2 : PaletteSource) (s : String)
        (e1 : ResolvedSymbol) (mp2 : SymbolMapping),
        mapGet m1 s = some e1 →
        p2.mappings.filter (fun x => x.symbol == s) = [mp2] →
        mapGet (applyPalette m1 p2 src2) s =
          some ⟨e1.symbol,
                if strTruthy mp2.terrain then mp2.terrain else e1.terrain,
                if strTruthy mp2.furniture then mp2.furniture else e1.furniture,
                src2⟩) := by
  constructor
  · decide
  · intro m1 p2 src2 s e1 mp2 hget hfilter
    unfold applyPalette
    rw [mapGet_applyPalette_of_filter_single m1 src2 s mp2 p2.mappings hfilter, hget]
    rfl

/-- Witness for `symbol_resolution_precedence` at a concrete input: the later
palette supplies only terrain, so furniture survives from the earlier
palette's entry while terrain is overwritten. -/
theorem symbol_resolution_precedence_witness :
    mapGet (applyPalette
        [⟨"a", some "t_old", some "f_old", PaletteSource.external "P0"⟩]
        ⟨"P1", [⟨"a", some "t_new", none⟩], []⟩
        (PaletteSource.external "P1")) "a" =
      some ⟨"a", some "t_new", some "f_old", PaletteSource.external "P1"⟩ := by
  have h := symbol_resolution_precedence.2
    [⟨"a", some "t_old", some "f_old", PaletteSource.external "P0"⟩]
    ⟨"P1", [⟨"a", some "t_new", none⟩], []⟩
    (PaletteSource.external "P1") "a"
    ⟨"a", some "t_old", some "f_old", PaletteSource.external "P0"⟩
    ⟨"a", some "t_new", none⟩
    (by decide) (by decide)
  simpa using h

/-! ## Serialization (`getModifiedJson` in useMapEditor.ts) -/

/-- JS object property assignment `r[k] = v`: overwrite in place when the key
exists, else append. -/
def recordSet (r : List (String × String)) (k v : String) : List (String × String) :=
  if r.any (fun kv => kv.1 == k) then
    r.map (fun kv => if kv.1 == k then (k, v) else kv)
  else r ++ [(k, v)]

/-- Embeds the loop of `getModifiedJson` building `inlineTerrain` and
`inlineFurniture` from the palette: only entries with inline provenance and a
truthy field are written. -/
def buildInlineMaps (palette : List ResolvedSymbol) :
    List (String × String) × List (String × String) :=
  palette.foldl (fun acc item =>
    if item.source = PaletteSource.inline then
      let acc1 := match item.terrain with
        | some t => if t == "" then acc.1 else recordSet acc.1 item.symbol t
        | none => acc.1
      let acc2 := match item.furniture with
        | some f => if f == "" then acc.2 else recordSet acc.2 item.symbol f
        | none => acc.2
      (acc1, acc2)
    else acc) ([], [])

/-- Embeds `getModifiedJson`: `none` when no entity is loaded; otherwise the
rows are replaced with the current grid and the inline terrain/furniture maps
are replaced with the rebuilt ones when non-empty (an empty rebuilt map leaves
the original field untouched: `if (Object.keys(...).length > 0)`). -/
def getModifiedJson (originalJson : Option MapgenJson) (grid : Grid)
    (palette : List ResolvedSymbol) : Option MapgenJson :=
  match originalJson with
  | none => none
  | some oj =>
    let obj0 := oj.object.getD emptyObject
    let maps := buildInlineMaps palette
    let obj1 := { obj0 with rows := some (gridToRows grid) }
    let obj2 :=
      if 0 < maps.1.length then
        { obj1 with terrain := some (maps.1.map (fun kv => (kv.1, JsonVal.str kv.2))) }
      else obj1
    let obj3 :=
      if 0 < maps.2.length then
        { obj2 with furniture := some (maps.2.map (fun kv => (kv.1, JsonVal.str kv.2))) }
      else obj2
    some { oj with object := some obj3 }

theorem mem_recordSet {r : List (String × String)} {k v : String} {p : String × String}
    (h : p ∈ recordSet r k v) : p ∈ r ∨ p = (k, v) := by
  unfold recordSet at h
  by_cases hany : r.any (fun kv => kv.1 == k) = true
  · rw [if_pos hany] at h
    rw [List.mem_map] at h
    obtain ⟨kv, hkv, hmap⟩ := h
    by_cases hk : (kv.1 == k) = true
    · rw [if_pos hk] at hmap
      exact Or.inr hmap.symm
    · rw [if_neg hk] at hmap
      exact Or.inl (hmap ▸ hkv)
  · rw [if_neg hany] at h
    rw [List.mem_append, List.mem_singleton] at h
    exact h

/-- Every pair in the rebuilt maps comes from an inline-provenance palette
item with the matching truthy field. -/
theorem mem_buildInlineMaps (palette : List ResolvedSymbol) :
    (∀ s t, (s, t) ∈ (buildInlineMaps palette).1 →
        ∃ item ∈ palette, item.source = PaletteSource.inline ∧
          item.symbol = s ∧ item.terrain = some t) ∧
    (∀ s f, (s, f) ∈ (buildInlineMaps palette).2 →
        ∃ item ∈ palette, item.source = PaletteSource.inline ∧
          item.symbol = s ∧ item.furniture = some f) := by
  have main : ∀ (ps : List ResolvedSymbol)
      (acc : List (String × String) × List (String × String)),
      (∀ s t, (s, t) ∈ (ps.foldl (fun acc item =>
          if item.source = PaletteSource.inline then
            let acc1 := match item.terrain with
              | some t => if t == "" then acc.1 else recordSet acc.1 item.symbol t
              | none => acc.1
            let acc2 := match item.furniture with
              | some f => if f == "" then acc.2 else recordSet acc.2 item.symbol f
              | none => acc.2
            (acc1, acc2)
          else acc) acc).1 →
        (s, t) ∈ acc.1 ∨ ∃ item ∈ ps, item.source = PaletteSource.inline ∧
          item.symbol = s ∧ item.terrain = some t) ∧
      (∀ s f, (s, f) ∈ (ps.foldl (fun acc item =>
          if item.source = PaletteSource.inline then
            let acc1 := match item.terrain with
              | some t => if t == "" then acc.1 else recordSet acc.1 item.symbol t
              | none => acc.1
            let acc2 := match item.furniture with
              | some f => if f == "" then acc.2 else recordSet acc.2 item.symbol f
              | none => acc.2
            (acc1, acc2)
          else acc) acc).2 →
        (s, f) ∈ acc.2 ∨ ∃ item ∈ ps, item.source = PaletteSource.inline ∧
          item.symbol = s ∧ item.furniture = some f) := by
    intro ps
    induction ps with
    | nil => exact fun acc => ⟨fun s t h => Or.inl h, fun s f h => Or.inl h⟩
    | cons item tl ih =>
      intro acc
      constructor
      · intro s t h
        simp only [List.foldl_cons] at h
        rcases (ih _).1 s t h with hacc | ⟨it, hit, h1, h2, h3⟩
        · by_cases hsrc : item.source = PaletteSource.inline
          · rw [if_pos hsrc] at hacc
            dsimp only at hacc
            cases hter : item.terrain with
            | none =>
              rw [hter] at hacc
              exact Or.inl hacc
            | some t0 =>
              rw [hter] at hacc
              dsimp only at hacc
              by_cases ht0 : (t0 == "") = true
              · rw [if_pos ht0] at hacc
                exact Or.inl hacc
              · rw [if_neg ht0] at hacc
                rcases mem_recordSet hacc with hmem | heq
                · exact Or.inl hmem
                · have hs : s = item.symbol := congrArg Prod.fst heq
                  have ht : t = t0 := congrArg Prod.snd heq
                  refine Or.inr ⟨item, List.mem_cons_self item tl, hsrc, hs.symm, ?_⟩
                  rw [hter, ht]
          · rw [if_neg hsrc] at hacc
            exact Or.inl hacc
        · exact Or.inr ⟨it, List.mem_cons_of_mem item hit, h1, h2, h3⟩
      · intro s f h
        simp only [List.foldl_cons] at h
        rcases (ih _).2 s f h with hacc | ⟨it, hit, h1, h2, h3⟩
        · by_cases hsrc : item.source = PaletteSource.inline
          · rw [if_pos hsrc] at hacc
            dsimp only at hacc
            cases hfur : item.furniture with
            | none =>
              rw [hfur] at hacc
              exact Or.inl hacc
            | some f0 =>
              rw [hfur] at hacc
              dsimp only at hacc
              by_cases hf0 : (f0 == "") = true
              · rw [if_pos hf0] at hacc
                exact Or.inl hacc
              · rw [if_neg hf0] at hacc
                rcases mem_recordSet hacc with hmem | heq
                · exact Or.inl hmem
                · have hs : s = item.symbol := congrArg Prod.fst heq
                  have hf : f = f0 := congrArg Prod.snd heq
                  refine Or.inr ⟨item, List.mem_cons_self item tl, hsrc, hs.symm, ?_⟩
                  rw [hfur, hf]
          · rw [if_neg hsrc] at hacc
            exact Or.inl hacc
        · exact Or.inr ⟨it, List.mem_cons_of_mem item hit, h1, h2, h3⟩
  constructor
  · intro s t h
    rcases (main palette ([], [])).1 s t h with hacc | hx
    · simp at hacc
    · exact hx
  · intro s f h
    rcases (main palette ([], [])).2 s f h with hacc | hx
    · simp at hacc
    · exact hx

/-- C3-style helper: the serialized object in each case of `getModifiedJson`. -/
theorem getModifiedJson_some (oj : MapgenJson) (grid : Grid)
    (palette : List ResolvedSymbol) :
    ∃ obj : MapgenObject,
      getModifiedJson (some oj) grid palette = some ⟨some obj⟩ ∧
      obj.rows = some (gridToRows grid) ∧
      (0 < (buildInlineMaps palette).1.length →
        obj.terrain =
          some ((buildInlineMaps palette).1.map (fun kv => (kv.1, JsonVal.str kv.2)))) ∧
      ((buildInlineMaps palette).1.length = 0 →
        obj.terrain = (oj.object.getD emptyObject).terrain) ∧
      (0 < (buildInlineMaps palette).2.length →
        obj.furniture =
          some ((buildInlineMaps palette).2.map (fun kv => (kv.1, JsonVal.str kv.2)))) ∧
      ((buildInlineMaps palette).2.length = 0 →
        obj.furniture = (oj.object.getD emptyObject).furniture) := by
  by_cases h1 : 0 < (buildInlineMaps palette).1.length <;>
    by_cases h2 : 0 < (buildInlineMaps palette).2.length
  · refine ⟨{ oj.object.getD emptyObject with
              rows := some (gridToRows grid),
              terrain := some ((buildInlineMaps palette).1.map
                (fun kv => (kv.1, JsonVal.str kv.2))),
              furniture := some ((buildInlineMaps palette).2.map
                (fun kv => (kv.1, JsonVal.str kv.2))) },
            ?_, rfl, fun _ => rfl, fun h => absurd h (by omega),
            fun _ => rfl, fun h => absurd h (by omega)⟩
    unfold getModifiedJson
    dsimp only
    rw [if_pos h1, if_pos h2]
  · refine ⟨{ oj.object.getD emptyObject with
              rows := some (gridToRows grid),
              terrain := some ((buildInlineMaps palette).1.map
                (fun kv => (kv.1, JsonVal.str kv.2))) },
            ?_, rfl, fun _ => rfl, fun h => absurd h (by omega),
            fun h => absurd h2 (by omega), fun _ => rfl⟩
    unfold getModifiedJson
    dsimp only
    rw [if_pos h1, if_neg h2]
  · refine ⟨{ oj.object.getD emptyObject with
              rows := some (gridToRows grid),
              furniture := some ((buildInlineMaps palette).2.map
                (fun kv => (kv.1, JsonVal.str kv.2))) },
            ?_, rfl, fun h => absurd h1 (by omega), fun _ => rfl,
            fun _ => rfl, fun h => absurd h (by omega)⟩
    unfold getModifiedJson
    dsimp only
    rw [if_neg h1, if_pos h2]
  · refine ⟨{ oj.object.getD emptyObject with
              rows := some (gridToRows grid) },
            ?_, rfl, fun h => absurd h1 (by omega), fun _ => rfl,
            fun h => absurd h2 (by omega), fun _ => rfl⟩
    unfold getModifiedJson
    dsimp only
    rw [if_neg h1, if_neg h2]

/-- C9: serialization rebuilds the inline terrain/furniture maps from the
palette using only inline-provenance entries with a truthy field — every
external-provenance entry is omitted — and it returns `none` when no entity
is loaded.  A rebuilt map replaces the original field only when non-empty. -/
theorem serialization_inline_only :
    (∀ (grid : Grid) (palette : List ResolvedSymbol),
        getModifiedJson none grid palette = none) ∧
    (∀ (palette : List ResolvedSymbol) (s t : String),
        (s, t) ∈ (buildInlineMaps palette).1 →
        ∃ item ∈ palette, item.source = PaletteSource.inline ∧
          item.symbol = s ∧ item.terrain = some t) ∧
    (∀ (palette : List ResolvedSymbol) (s f : String),
        (s, f) ∈ (buildInlineMaps palette).2 →
        ∃ item ∈ palette, item.source = PaletteSource.inline ∧
          item.symbol = s ∧ item.furniture = some f) ∧
    (∀ (oj : MapgenJson) (grid : Grid) (palette : List ResolvedSymbol),
        ∃ obj : MapgenObject,
          getModifiedJson (some oj) grid palette = some ⟨some obj⟩ ∧
          obj.rows = some (gridToRows grid) ∧
          (0 < (buildInlineMaps palette).1.length →
            obj.terrain =
              some ((buildInlineMaps palette).1.map (fun kv => (kv.1, JsonVal.str kv.2)))) ∧
          ((buildInlineMaps palette).1.length = 0 →
            obj.terrain = (oj.object.getD emptyObject).terrain) ∧
          (0 < (buildInlineMaps palette).2.length →
            obj.furniture =
              some ((buildInlineMaps palette).2.map (fun kv => (kv.1, JsonVal.str kv.2)))) ∧
          ((buildInlineMaps palette).2.length = 0 →
            obj.furniture = (oj.object.getD emptyObject).furniture)) :=
  ⟨fun _ _ => rfl,
   fun palette => (mem_buildInlineMaps palette).1,
   fun palette => (mem_buildInlineMaps palette).2,
   getModifiedJson_some⟩

/-- Witness for `serialization_inline_only` at a concrete input: a palette
with one inline entry and one external entry serializes only the inline one. -/
theorem serialization_inline_only_witness :
    getModifiedJson none [['a']]
      [⟨"a", some "t_door", none, PaletteSource.inline⟩] = none ∧
    (∃ item ∈ [⟨"b", some "t_wall", none, PaletteSource.external "P1"⟩,
               ⟨"a", some "t_door", none, PaletteSource.inline⟩],
      ResolvedSymbol.source item = PaletteSource.inline ∧
      ResolvedSymbol.symbol item = "a" ∧ ResolvedSymbol.terrain item = some "t_door") := by
  constructor
  · exact serialization_inline_only.1 [['a']] _
  · exact serialization_inline_only.2.1
      [⟨"b", some "t_wall", none, PaletteSource.external "P1"⟩,
       ⟨"a", some "t_door", none, PaletteSource.inline⟩] "a" "t_door" (by decide)

/-! ## Line tool (`getLineCells` in the MapGrid component)

The JS `while (true)` loop is modeled with fuel; `dr + dc + 1` iterations are
proved sufficient (the loop pushes one cell per iteration and moves at least
one step towards the target per iteration, see the C4 development). -/

def lineAux (r1 c1 dr dc sr sc : Int) :
    Nat → Int → Int → Int → List (Int × Int)
  | 0, _, _, _ => []
  | fuel + 1, r, c, err =>
    (r, c) ::
      (if r = r1 ∧ c = c1 then []
       else
         let e2 := 2 * err
         let r' := if e2 > -dc then r + sr else r
         let err1 := if e2 > -dc then err - dc else err
         let c' := if e2 < dr then c + sc else c
         let err2 := if e2 < dr then err1 + dr else err1
         lineAux r1 c1 dr dc sr sc fuel r' c' err2)

/-- Embeds `getLineCells` (Bresenham, all octants). -/
def getLineCells (r0 c0 r1 c1 : Int) : List (Int × Int) :=
  let dr := |r1 - r0|
  let dc := |c1 - c0|
  let sr : Int := if r0 < r1 then 1 else -1
  let sc : Int := if c0 < c1 then 1 else -1
  lineAux r1 c1 dr dc sr sc (dr.toNat + dc.toNat + 1) r0 c0 (dr - dc)

/-! ## Flood fill (`getFloodFillCells` in the MapGrid component) -/

/-- `grid[row][col]`: `none` models JS `undefined` (row or column out of
range, including ragged rows and negative indices). -/
def cellAt (grid : Grid) (row col : Int) : Option Char :=
  if 0 ≤ row ∧ 0 ≤ col then (grid.get? row.toNat).bind (fun r => r.get? col.toNat)
  else none

/-- The four neighbors pushed by the flood-fill loop, in push order. -/
def neighborsOf (p : Int × Int) : List (Int × Int) :=
  [(p.1 - 1, p.2), (p.1 + 1, p.2), (p.1, p.2 - 1), (p.1, p.2 + 1)]

/-- The loop's bounds check `row < 0 || row >= rows || col < 0 || col >= cols`
(negated). -/
def inBoundsB (rows cols : Nat) (p : Int × Int) : Bool :=
  decide (0 ≤ p.1 ∧ p.1 < (rows : Int) ∧ 0 ≤ p.2 ∧ p.2 < (cols : Int))

/-- The BFS loop of `getFloodFillCells`: `visited` is the key set, `cells` the
output array, `queue` the FIFO work list; fuel is a proof device only (shown
sufficient in the C6 development). -/
def ffAux (grid : Grid) (target : Option Char) (rows cols : Nat) :
    Nat → List (Int × Int) → List (Int × Int) → List (Int × Int) → List (Int × Int)
  | _, _, cells, [] => cells
  | 0, _, cells, _ :: _ => cells
  | fuel + 1, visited, cells, p :: rest =>
    if p ∈ visited then ffAux grid target rows cols fuel visited cells rest
    else if inBoundsB rows cols p = false then
      ffAux grid target rows cols fuel visited cells rest
    else if cellAt grid p.1 p.2 ≠ target then
      ffAux grid target rows cols fuel visited cells rest
    else ffAux grid target rows cols fuel (p :: visited) (cells ++ [p])
      (rest ++ neighborsOf p)

/-- Embeds `getFloodFillCells`: out-of-bounds click or a click on the selected
symbol yields no cells; otherwise BFS over the 4-connected region of the
clicked cell's symbol.  (`targetSymbol === newSymbol` compares a possibly
`undefined` cell with the selected one-character string.) -/
def getFloodFillCells (grid : Grid) (startRow startCol : Int)
    (newSymbol : Char) : List (Int × Int) :=
  let rows := grid.length
  let cols := (grid.head?.map List.length).getD 0
  if startRow < 0 ∨ startRow ≥ (rows : Int) ∨ startCol < 0 ∨ startCol ≥ (cols : Int) then []
  else
    let target := cellAt grid startRow startCol
    if target = some newSymbol then []
    else ffAux grid target rows cols (4 * rows * cols + 1) [] [] [(startRow, startCol)]

/-! ## Canvas interaction state (C8)

`toolStart` (the pending two-click anchor) is component-local state of
`MapGrid`; `tool` and `boxFilled` live in the `useMapEditor` hook and reach
the component as props.  The combined interaction state: -/

inductive MapTool where
  | hand | paint | line | box | fill | eyedropper
  deriving DecidableEq, Repr

structure CanvasState where
  tool : MapTool
  boxFilled : Bool
  toolStart : Option (Int × Int)
  isPainting : Bool
  deriving DecidableEq, Repr

inductive CanvasEffect where
  | startPan
  | selectSymbol (symbol : Char)
  | toolChange (tool : MapTool)
  | cellChange (row col : Int) (symbol : Char)
  | cellsChange (cells : List (Int × Int × Char))
  deriving DecidableEq, Repr

/-- Embeds `getSymbolAt` from the hook (the eyedropper's source of symbols). -/
def getSymbolAt (grid : Grid) (row col : Int) : Option Char :=
  if 0 ≤ row ∧ row < (grid.length : Int) ∧ 0 ≤ col ∧
      col < (((grid.head?.map List.length).getD 0 : Nat) : Int) then
    (grid.get? row.toNat).bind (fun r => r.get? col.toNat)
  else none

/-- Embeds `handleMouseDown` for a plain left-click that hit an in-bounds
cell (the middle-button/Alt/panning/outside-canvas paths return before the
tool dispatch and are elided).  Emitted callbacks become `CanvasEffect`s.
A found symbol is a one-character string, hence truthy. -/
def handleMouseDown (s : CanvasState) (grid : Grid) (cell : Int × Int)
    (selectedSymbol : Option Char) : CanvasState × List CanvasEffect :=
  if s.tool = MapTool.hand then (s, [CanvasEffect.startPan])
  else if s.tool = MapTool.eyedropper then
    match getSymbolAt grid cell.1 cell.2 with
    | some sym => (s, [CanvasEffect.selectSymbol sym, CanvasEffect.toolChange MapTool.paint])
    | none => (s, [])
  else
    match selectedSymbol with
    | none => (s, [])
    | some sym =>
      if s.tool = MapTool.paint then
        ({ s with isPainting := true }, [CanvasEffect.cellChange cell.1 cell.2 sym])
      else if s.tool = MapTool.fill then
        let cells := getFloodFillCells grid cell.1 cell.2 sym
        if 0 < cells.length then
          (s, [CanvasEffect.cellsChange (cells.map (fun c => (c.1, c.2, sym)))])
        else (s, [])
      else if s.tool = MapTool.line ∨ s.tool = MapTool.box then
        match s.toolStart with
        | none => ({ s with toolStart := some cell }, [])
        | some a =>
          let cells :=
            if s.tool = MapTool.line then getLineCells a.1 a.2 cell.1 cell.2
            else if s.boxFilled then getBoxCells a.1 a.2 cell.1 cell.2
            else getBoxOutlineCells a.1 a.2 cell.1 cell.2
          ({ s with toolStart := none },
           [CanvasEffect.cellsChange (cells.map (fun c => (c.1, c.2, sym)))])
      else (s, [])

/-- Embeds the hook's `setTool`: pressing box again toggles filled/outline,
otherwise the tool changes.  It runs in the hook and has no access to the
component-local `toolStart`, so the pending anchor is untouched. -/
def setTool (s : CanvasState) (newTool : MapTool) : CanvasState :=
  if newTool = MapTool.box ∧ s.tool = MapTool.box then
    { s with boxFilled := !s.boxFilled }
  else { s with tool := newTool }

/-- The C8 scenario: start a Line (click sets the anchor), switch to Box
before the second click, then click twice; collect every emitted effect. -/
def staleAnchorScenario : List CanvasEffect :=
  let g : Grid := [['a']]
  let s0 : CanvasState :=
    { tool := MapTool.line, boxFilled := true, toolStart := none, isPainting := false }
  let r1 := handleMouseDown s0 g (0, 0) (some 'b')
  let s2 := setTool r1.1 MapTool.box
  let r3 := handleMouseDown s2 g (2, 2) (some 'b')
  let r4 := handleMouseDown r3.1 g (1, 1) (some 'b')
  r1.2 ++ r3.2 ++ r4.2

/-- C8 counterexample: after starting a Line at (0,0) and switching to Box,
the two Box clicks at (2,2) and (1,1) do NOT produce a box spanned by those
two clicks; the first click completes a box using the stale anchor (0,0). -/
theorem tool_switch_stale_anchor_counterexample :
    staleAnchorScenario =
      [CanvasEffect.cellsChange ((getBoxCells 0 0 2 2).map (fun c => (c.1, c.2, 'b')))] ∧
    staleAnchorScenario ≠
      [CanvasEffect.cellsChange ((getBoxCells 2 2 1 1).map (fun c => (c.1, c.2, 'b')))] := by
  constructor
  · decide
  · decide

/-- C8 (amended): switching the active tool does not cancel a pending
two-click anchor — `setTool` leaves `toolStart` untouched — so with a Box
tool and a pending anchor the next click always completes a box spanned by
the (possibly stale) anchor and that click, clearing the anchor. -/
theorem tool_switch_keeps_anchor :
    (∀ (s : CanvasState) (newTool : MapTool),
        (setTool s newTool).toolStart = s.toolStart) ∧
    (∀ (s : CanvasState) (grid : Grid) (a b : Int × Int) (sym : Char),
        s.tool = MapTool.box → s.toolStart = some a → s.boxFilled = true →
        handleMouseDown s grid b (some sym) =
          ({ s with toolStart := none },
           [CanvasEffect.cellsChange ((getBoxCells a.1 a.2 b.1 b.2).map
              (fun c => (c.1, c.2, sym)))])) := by
  constructor
  · intro s newTool
    unfold setTool
    by_cases h : newTool = MapTool.box ∧ s.tool = MapTool.box
    · rw [if_pos h]
    · rw [if_neg h]
  · intro s grid a b sym htool hanchor hfilled
    obtain ⟨tool, bf, ts, ip⟩ := s
    dsimp only at htool hanchor hfilled
    subst htool
    subst hanchor
    subst hfilled
    rfl

/-- Witness for `tool_switch_keeps_anchor` at a concrete input. -/
theorem tool_switch_keeps_anchor_witness :
    (setTool ⟨MapTool.line, true, some (0, 0), false⟩ MapTool.box).toolStart = some (0, 0) ∧
    handleMouseDown ⟨MapTool.box, true, some (0, 0), false⟩ [['a']] (2, 2) (some 'b') =
      (⟨MapTool.box, true, none, false⟩,
       [CanvasEffect.cellsChange ((getBoxCells 0 0 2 2).map (fun c => (c.1, c.2, 'b')))]) :=
  ⟨tool_switch_keeps_anchor.1 ⟨MapTool.line, true, some (0, 0), false⟩ MapTool.box,
   tool_switch_keeps_anchor.2 ⟨MapTool.box, true, some (0, 0), false⟩ [['a']]
     (0, 0) (2, 2) 'b' rfl rfl rfl⟩

/-! ### Bresenham correctness (C4)

The loop state after `i` row-steps and `j` column-steps is
`r = r0 + i*sr`, `c = c0 + j*sc`, `err = dr*(1+j) - dc*(1+i)`; the error
invariant rules out stepping past the target in either axis, and every
iteration takes at least one step, so `dr + dc + 1` fuel suffices. -/

theorem abs_mul_pm (k t : Int) (h0 : 0 ≤ k) (ht : t = 1 ∨ t = -1) : |k * t| = k := by
  rcases ht with rfl | rfl
  · rw [mul_one, abs_of_nonneg h0]
  · rw [mul_neg_one, abs_neg, abs_of_nonneg h0]

theorem meas_point (r0 c0 sr sc i j : Int) (h0i : 0 ≤ i) (h0j : 0 ≤ j)
    (hsr : sr = 1 ∨ sr = -1) (hsc : sc = 1 ∨ sc = -1) :
    |r0 + i * sr - r0| + |c0 + j * sc - c0| = i + j := by
  have e1 : r0 + i * sr - r0 = i * sr := by ring
  have e2 : c0 + j * sc - c0 = j * sc := by ring
  rw [e1, e2, abs_mul_pm i sr h0i hsr, abs_mul_pm j sc h0j hsc]

theorem lineAux_step_assemble (r0 c0 dr dc sr sc r1 c1 : Int)
    (hsr : sr = 1 ∨ sr = -1) (hsc : sc = 1 ∨ sc = -1)
    (i j i' j' : Int) (n : Nat)
    (h0i : 0 ≤ i) (h0j : 0 ≤ j) (h0i' : 0 ≤ i') (h0j' : 0 ≤ j')
    (hlt : i + j < i' + j')
    (hi'd : i ≤ i') (hi'1 : i' ≤ i + 1) (hj'd : j ≤ j') (hj'1 : j' ≤ j + 1)
    (hH : (lineAux r1 c1 dr dc sr sc n (r0 + i' * sr) (c0 + j' * sc)
        (dr * (1 + j') - dc * (1 + i'))).head? = some (r0 + i' * sr, c0 + j' * sc))
    (hL : (lineAux r1 c1 dr dc sr sc n (r0 + i' * sr) (c0 + j' * sc)
        (dr * (1 + j') - dc * (1 + i'))).getLast? = some (r1, c1))
    (hM : ∀ p ∈ lineAux r1 c1 dr dc sr sc n (r0 + i' * sr) (c0 + j' * sc)
        (dr * (1 + j') - dc * (1 + i')), i' + j' ≤ |p.1 - r0| + |p.2 - c0|)
    (hP : List.Pairwise (fun a b => |a.1 - r0| + |a.2 - c0| < |b.1 - r0| + |b.2 - c0|)
        (lineAux r1 c1 dr dc sr sc n (r0 + i' * sr) (c0 + j' * sc)
          (dr * (1 + j') - dc * (1 + i'))))
    (hC : List.Chain' (fun a b => |a.1 - b.1| ≤ 1 ∧ |a.2 - b.2| ≤ 1)
        (lineAux r1 c1 dr dc sr sc n (r0 + i' * sr) (c0 + j' * sc)
          (dr * (1 + j') - dc * (1 + i')))) :
    ((r0 + i * sr, c0 + j * sc) :: lineAux r1 c1 dr dc sr sc n (r0 + i' * sr)
        (c0 + j' * sc) (dr * (1 + j') - dc * (1 + i'))).head? =
      some (r0 + i * sr, c0 + j * sc) ∧
    ((r0 + i * sr, c0 + j * sc) :: lineAux r1 c1 dr dc sr sc n (r0 + i' * sr)
        (c0 + j' * sc) (dr * (1 + j') - dc * (1 + i'))).getLast? = some (r1, c1) ∧
    (∀ p ∈ (r0 + i * sr, c0 + j * sc) :: lineAux r1 c1 dr dc sr sc n (r0 + i' * sr)
        (c0 + j' * sc) (dr * (1 + j') - dc * (1 + i')),
      i + j ≤ |p.1 - r0| + |p.2 - c0|) ∧
    List.Pairwise (fun a b => |a.1 - r0| + |a.2 - c0| < |b.1 - r0| + |b.2 - c0|)
      ((r0 + i * sr, c0 + j * sc) :: lineAux r1 c1 dr dc sr sc n (r0 + i' * sr)
        (c0 + j' * sc) (dr * (1 + j') - dc * (1 + i'))) ∧
    List.Chain' (fun a b => |a.1 - b.1| ≤ 1 ∧ |a.2 - b.2| ≤ 1)
      ((r0 + i * sr, c0 + j * sc) :: lineAux r1 c1 dr dc sr sc n (r0 + i' * sr)
        (c0 + j' * sc) (dr * (1 + j') - dc * (1 + i'))) := by
  have hmeas : |r0 + i * sr - r0| + |c0 + j * sc - c0| = i + j :=
    meas_point r0 c0 sr sc i j h0i h0j hsr hsc
  refine ⟨rfl, ?_, ?_, ?_, ?_⟩
  · cases hnil : lineAux r1 c1 dr dc sr sc n (r0 + i' * sr) (c0 + j' * sc)
        (dr * (1 + j') - dc * (1 + i')) with
    | nil =>
      rw [hnil] at hH
      simp at hH
    | cons x xs =>
      rw [hnil] at hL
      rw [List.getLast?_cons_cons]
      exact hL
  · intro p hp
    rcases List.mem_cons.mp hp with rfl | hp'
    · exact le_of_eq hmeas.symm
    · have := hM p hp'
      linarith
  · rw [List.pairwise_cons]
    refine ⟨?_, hP⟩
    intro b hb
    have hMb := hM b hb
    have : i + j < |b.1 - r0| + |b.2 - c0| := by linarith
    dsimp only
    rw [hmeas]
    exact this
  · rw [List.chain'_cons']
    refine ⟨?_, hC⟩
    intro b hb
    have hbx : b = (r0 + i' * sr, c0 + j' * sc) := by
      rw [hH] at hb
      cases hb
      rfl
    subst hbx
    constructor
    · dsimp only
      have e2 : r0 + i * sr - (r0 + i' * sr) = (i - i') * sr := by ring
      rw [e2]
      have : |(i - i') * sr| = |i - i'| := by
        rcases hsr with rfl | rfl
        · rw [mul_one]
        · rw [mul_neg_one, abs_neg]
      rw [this]
      rw [abs_le]
      omega
    · dsimp only
      have e2 : c0 + j * sc - (c0 + j' * sc) = (j - j') * sc := by ring
      rw [e2]
      have : |(j - j') * sc| = |j - j'| := by
        rcases hsc with rfl | rfl
        · rw [mul_one]
        · rw [mul_neg_one, abs_neg]
      rw [this]
      rw [abs_le]
      omega

theorem lineAux_spec (r0 c0 dr dc sr sc : Int)
    (hdr : 0 ≤ dr) (hdc : 0 ≤ dc)
    (hsr : sr = 1 ∨ sr = -1) (hsc : sc = 1 ∨ sc = -1)
    (r1 c1 : Int) (hr1 : r1 = r0 + dr * sr) (hc1 : c1 = c0 + dc * sc) :
    ∀ (fuel : Nat) (i j : Int), 0 ≤ i → i ≤ dr → 0 ≤ j → j ≤ dc →
      dr - i + (dc - j) < (fuel : Int) →
      (lineAux r1 c1 dr dc sr sc fuel (r0 + i * sr) (c0 + j * sc)
          (dr * (1 + j) - dc * (1 + i))).head? = some (r0 + i * sr, c0 + j * sc) ∧
      (lineAux r1 c1 dr dc sr sc fuel (r0 + i * sr) (c0 + j * sc)
          (dr * (1 + j) - dc * (1 + i))).getLast? = some (r1, c1) ∧
      (∀ p ∈ lineAux r1 c1 dr dc sr sc fuel (r0 + i * sr) (c0 + j * sc)
          (dr * (1 + j) - dc * (1 + i)), i + j ≤ |p.1 - r0| + |p.2 - c0|) ∧
      List.Pairwise (fun a b => |a.1 - r0| + |a.2 - c0| < |b.1 - r0| + |b.2 - c0|)
        (lineAux r1 c1 dr dc sr sc fuel (r0 + i * sr) (c0 + j * sc)
          (dr * (1 + j) - dc * (1 + i))) ∧
      List.Chain' (fun a b => |a.1 - b.1| ≤ 1 ∧ |a.2 - b.2| ≤ 1)
        (lineAux r1 c1 dr dc sr sc fuel (r0 + i * sr) (c0 + j * sc)
          (dr * (1 + j) - dc * (1 + i))) := by
  intro fuel
  induction fuel with
  | zero =>
    intro i j h0i hidr h0j hjdc hfuel
    exfalso
    push_cast at hfuel
    omega
  | succ n ih =>
    intro i j h0i hidr h0j hjdc hfuel
    have htarget : (r0 + i * sr = r1 ∧ c0 + j * sc = c1) ↔ (i = dr ∧ j = dc) := by
      subst hr1
      subst hc1
      rcases hsr with rfl | rfl <;> rcases hsc with rfl | rfl <;>
        (constructor <;> rintro ⟨h1, h2⟩ <;> exact ⟨by omega, by omega⟩)
    have hmeas : |r0 + i * sr - r0| + |c0 + j * sc - c0| = i + j :=
      meas_point r0 c0 sr sc i j h0i h0j hsr hsc
    by_cases hT : i = dr ∧ j = dc
    · have hEq := htarget.mpr hT
      simp only [lineAux]
      rw [if_pos hEq]
      refine ⟨rfl, ?_, ?_, ?_, ?_⟩
      · simp [hEq.1, hEq.2]
      · intro p hp
        rw [List.mem_singleton] at hp
        subst hp
        exact le_of_eq hmeas.symm
      · exact List.pairwise_singleton _ _
      · exact List.chain'_singleton _
    · have hnt : ¬(r0 + i * sr = r1 ∧ c0 + j * sc = c1) := fun h => hT (htarget.mp h)
      simp only [lineAux]
      rw [if_neg hnt]
      have hjlt_of_ieq : i = dr → j < dc := by
        intro hieq
        rcases lt_or_eq_of_le hjdc with h | h
        · exact h
        · exact absurd ⟨hieq, h⟩ hT
      have hilt_of_jeq : j = dc → i < dr := by
        intro hjeq
        rcases lt_or_eq_of_le hidr with h | h
        · exact h
        · exact absurd ⟨h, hjeq⟩ hT
      by_cases hcr : 2 * (dr * (1 + j) - dc * (1 + i)) > -dc
      · have hilt : i < dr := by
          rcases lt_or_eq_of_le hidr with h | h
          · exact h
          · exfalso
            have hjlt := hjlt_of_ieq h
            subst h
            nlinarith [mul_nonneg hdr (show (0 : Int) ≤ dc - 1 - j by omega)]
        by_cases hcc : 2 * (dr * (1 + j) - dc * (1 + i)) < dr
        · have hjlt : j < dc := by
            rcases lt_or_eq_of_le hjdc with h | h
            · exact h
            · exfalso
              have hilt' := hilt_of_jeq h
              subst h
              nlinarith [mul_nonneg hdc (show (0 : Int) ≤ dr - 1 - i by omega)]
          rw [if_pos hcr, if_pos hcr, if_pos hcc, if_pos hcc]
          have er : r0 + i * sr + sr = r0 + (i + 1) * sr := by ring
          have ec : c0 + j * sc + sc = c0 + (j + 1) * sc := by ring
          have ee : dr * (1 + j) - dc * (1 + i) - dc + dr =
              dr * (1 + (j + 1)) - dc * (1 + (i + 1)) := by ring
          rw [er, ec, ee]
          obtain ⟨ihH, ihL, ihM, ihP, ihC⟩ :=
            ih (i + 1) (j + 1) (by omega) (by omega) (by omega) (by omega)
              (by push_cast at hfuel ⊢; omega)
          exact lineAux_step_assemble r0 c0 dr dc sr sc r1 c1 hsr hsc i j (i + 1) (j + 1) n
            h0i h0j (by omega) (by omega) (by omega) (by omega) (by omega) (by omega)
            (by omega) ihH ihL ihM ihP ihC
        · rw [if_pos hcr, if_pos hcr, if_neg hcc, if_neg hcc]
          have er : r0 + i * sr + sr = r0 + (i + 1) * sr := by ring
          have ee : dr * (1 + j) - dc * (1 + i) - dc =
              dr * (1 + j) - dc * (1 + (i + 1)) := by ring
          rw [er, ee]
          obtain ⟨ihH, ihL, ihM, ihP, ihC⟩ :=
            ih (i + 1) j (by omega) (by omega) (by omega) (by omega)
              (by push_cast at hfuel ⊢; omega)
          exact lineAux_step_assemble r0 c0 dr dc sr sc r1 c1 hsr hsc i j (i + 1) j n
            h0i h0j (by omega) (by omega) (by omega) (by omega) (by omega) (by omega)
            (by omega) ihH ihL ihM ihP ihC
      · by_cases hcc : 2 * (dr * (1 + j) - dc * (1 + i)) < dr
        · have hjlt : j < dc := by
            rcases lt_or_eq_of_le hjdc with h | h
            · exact h
            · exfalso
              have hilt' := hilt_of_jeq h
              subst h
              nlinarith [mul_nonneg hdc (show (0 : Int) ≤ dr - 1 - i by omega)]
          rw [if_neg hcr, if_neg hcr, if_pos hcc, if_pos hcc]
          have ec : c0 + j * sc + sc = c0 + (j + 1) * sc := by ring
          have ee : dr * (1 + j) - dc * (1 + i) + dr =
              dr * (1 + (j + 1)) - dc * (1 + i) := by ring
          rw [ec, ee]
          obtain ⟨ihH, ihL, ihM, ihP, ihC⟩ :=
            ih i (j + 1) (by omega) (by omega) (by omega) (by omega)
              (by push_cast at hfuel ⊢; omega)
          exact lineAux_step_assemble r0 c0 dr dc sr sc r1 c1 hsr hsc i j i (j + 1) n
            h0i h0j (by omega) (by omega) (by omega) (by omega) (by omega) (by omega)
            (by omega) ihH ihL ihM ihP ihC
        · exfalso
          have h1 : 2 * (dr * (1 + j) - dc * (1 + i)) ≤ -dc := not_lt.mp hcr
          have h2 : dr ≤ 2 * (dr * (1 + j) - dc * (1 + i)) := not_lt.mp hcc
          have h3 : dr ≤ -dc := le_trans h2 h1
          exact hT ⟨by omega, by omega⟩

theorem chain'_and {α : Type} {R S : α → α → Prop} {l : List α}
    (hR : List.Chain' R l) (hS : List.Chain' S l) :
    List.Chain' (fun a b => R a b ∧ S a b) l := by
  induction l with
  | nil => simp
  | cons a t ihl =>
    rw [List.chain'_cons'] at *
    exact ⟨fun b hb => ⟨hR.1 b hb, hS.1 b hb⟩, ihl hR.2 hS.2⟩

/-- C4: for every pair of endpoints the Bresenham cell list starts at the
anchor, ends at the target, has no gaps (consecutive cells are distinct
8-neighbors) and no duplicates; in particular (0,0)→(0,5) gives the 6
vertical cells and (0,0)→(3,3) gives the 4 diagonal cells. -/
theorem getLineCells_correct :
    (∀ r0 c0 r1 c1 : Int,
        (getLineCells r0 c0 r1 c1).head? = some (r0, c0) ∧
        (getLineCells r0 c0 r1 c1).getLast? = some (r1, c1) ∧
        (getLineCells r0 c0 r1 c1).Nodup ∧
        List.Chain' (fun a b => |a.1 - b.1| ≤ 1 ∧ |a.2 - b.2| ≤ 1 ∧ a ≠ b)
          (getLineCells r0 c0 r1 c1)) ∧
    getLineCells 0 0 0 5 = [(0, 0), (0, 1), (0, 2), (0, 3), (0, 4), (0, 5)] ∧
    getLineCells 0 0 3 3 = [(0, 0), (1, 1), (2, 2), (3, 3)] := by
  refine ⟨?_, by decide, by decide⟩
  intro r0 c0 r1 c1
  unfold getLineCells
  have hdr : (0 : Int) ≤ |r1 - r0| := abs_nonneg _
  have hdc : (0 : Int) ≤ |c1 - c0| := abs_nonneg _
  have hsr : (if r0 < r1 then (1 : Int) else -1) = 1 ∨
      (if r0 < r1 then (1 : Int) else -1) = -1 := by
    by_cases h : r0 < r1
    · exact Or.inl (if_pos h)
    · exact Or.inr (if_neg h)
  have hsc : (if c0 < c1 then (1 : Int) else -1) = 1 ∨
      (if c0 < c1 then (1 : Int) else -1) = -1 := by
    by_cases h : c0 < c1
    · exact Or.inl (if_pos h)
    · exact Or.inr (if_neg h)
  have hr1 : r1 = r0 + |r1 - r0| * (if r0 < r1 then (1 : Int) else -1) := by
    by_cases h : r0 < r1
    · rw [if_pos h, mul_one, abs_of_nonneg (by omega)]
      ring
    · rw [if_neg h, mul_neg_one, abs_of_nonpos (by omega)]
      ring
  have hc1 : c1 = c0 + |c1 - c0| * (if c0 < c1 then (1 : Int) else -1) := by
    by_cases h : c0 < c1
    · rw [if_pos h, mul_one, abs_of_nonneg (by omega)]
      ring
    · rw [if_neg h, mul_neg_one, abs_of_nonpos (by omega)]
      ring
  have hfuel : |r1 - r0| - 0 + (|c1 - c0| - 0) <
      ((|r1 - r0|.toNat + |c1 - c0|.toNat + 1 : Nat) : Int) := by
    push_cast
    rw [Int.toNat_of_nonneg hdr, Int.toNat_of_nonneg hdc]
    omega
  obtain ⟨H, L, M, P, C⟩ :=
    lineAux_spec r0 c0 |r1 - r0| |c1 - c0|
      (if r0 < r1 then (1 : Int) else -1) (if c0 < c1 then (1 : Int) else -1)
      hdr hdc hsr hsc r1 c1 hr1 hc1
      (|r1 - r0|.toNat + |c1 - c0|.toNat + 1) 0 0 le_rfl hdr le_rfl hdc hfuel
  rw [show r0 + 0 * (if r0 < r1 then (1 : Int) else -1) = r0 by ring,
      show c0 + 0 * (if c0 < c1 then (1 : Int) else -1) = c0 by ring,
      show |r1 - r0| * (1 + 0) - |c1 - c0| * (1 + 0) = |r1 - r0| - |c1 - c0| by ring]
    at H L P C
  refine ⟨H, L, ?_, ?_⟩
  · refine P.imp ?_
    intro a b hlt heq
    rw [heq] at hlt
    exact lt_irrefl _ hlt
  · refine (chain'_and C P.chain').imp ?_
    intro a b hab
    refine ⟨hab.1.1, hab.1.2, ?_⟩
    intro heq
    rw [heq] at hab
    exact lt_irrefl _ hab.2

/-! ### Flood-fill correctness (C6)

The BFS invariants: `visited` and `cells` hold the same set without
duplicates, everything visited lies in the 4-connected same-symbol region of
the start cell, every queued cell is region-reachable if it qualifies, and
the neighbors of every visited cell are visited or queued.  On an empty queue
this makes `cells` exactly the region. -/

/-- A cell the loop accepts: in bounds and showing the target symbol. -/
def goodCell (grid : Grid) (target : Option Char) (rows cols : Nat)
    (p : Int × Int) : Prop :=
  inBoundsB rows cols p = true ∧ cellAt grid p.1 p.2 = target

/-- One 4-connected step between two accepted cells. -/
def ffStep (grid : Grid) (target : Option Char) (rows cols : Nat)
    (p q : Int × Int) : Prop :=
  goodCell grid target rows cols p ∧ goodCell grid target rows cols q ∧
  q ∈ neighborsOf p

/-- The 4-connected region of the start cell: accepted cells reachable from
the start through accepted cells. -/
def ffRegion (grid : Grid) (target : Option Char) (rows cols : Nat)
    (start p : Int × Int) : Prop :=
  goodCell grid target rows cols p ∧
  Relation.ReflTransGen (ffStep grid target rows cols) start p

/-- All in-bounds coordinates as a finset (for the fuel argument). -/
def boundsFinset (rows cols : Nat) : Finset (Int × Int) :=
  ((Finset.range rows) ×ˢ (Finset.range cols)).image
    (fun ab => ((ab.1 : Int), (ab.2 : Int)))

theorem mem_boundsFinset {rows cols : Nat} {p : Int × Int} :
    p ∈ boundsFinset rows cols ↔ inBoundsB rows cols p = true := by
  unfold boundsFinset inBoundsB
  rw [Finset.mem_image]
  constructor
  · rintro ⟨ab, hab, rfl⟩
    rw [Finset.mem_product, Finset.mem_range, Finset.mem_range] at hab
    simp only [decide_eq_true_eq]
    constructor
    · omega
    constructor
    · exact_mod_cast hab.1
    constructor
    · omega
    · exact_mod_cast hab.2
  · intro h
    rw [decide_eq_true_eq] at h
    obtain ⟨h1, h2, h3, h4⟩ := h
    refine ⟨(p.1.toNat, p.2.toNat), ?_, ?_⟩
    · rw [Finset.mem_product, Finset.mem_range, Finset.mem_range]
      constructor <;> omega
    · dsimp only
      rw [Int.toNat_of_nonneg h1, Int.toNat_of_nonneg h3]

/-- The accepted cells as a finset. -/
def goodFinset (grid : Grid) (target : Option Char) (rows cols : Nat) :
    Finset (Int × Int) :=
  (boundsFinset rows cols).filter (fun p => cellAt grid p.1 p.2 = target)

theorem mem_goodFinset {grid : Grid} {target : Option Char} {rows cols : Nat}
    {p : Int × Int} :
    p ∈ goodFinset grid target rows cols ↔ goodCell grid target rows cols p := by
  unfold goodFinset goodCell
  rw [Finset.mem_filter, mem_boundsFinset]

theorem goodFinset_card_le (grid : Grid) (target : Option Char) (rows cols : Nat) :
    (goodFinset grid target rows cols).card ≤ rows * cols := by
  calc (goodFinset grid target rows cols).card
      ≤ (boundsFinset rows cols).card := Finset.card_le_card (Finset.filter_subset _ _)
    _ ≤ ((Finset.range rows) ×ˢ (Finset.range cols)).card := Finset.card_image_le
    _ = rows * cols := by rw [Finset.card_product, Finset.card_range, Finset.card_range]

/-- The BFS output on an empty queue: `cells` is exactly the region once the
visited set is closed under accepted neighbors and holds the start. -/
theorem ffAux_base (grid : Grid) (target : Option Char) (rows cols : Nat)
    (start : Int × Int)
    (visited cells : List (Int × Int))
    (hvc : ∀ p, p ∈ visited ↔ p ∈ cells)
    (hnd : cells.Nodup)
    (hvis : ∀ p ∈ visited, ffRegion grid target rows cols start p)
    (hclosed : ∀ v ∈ visited, ∀ q ∈ neighborsOf v,
        goodCell grid target rows cols q → q ∈ visited)
    (hstart : start ∈ visited) :
    cells.Nodup ∧ (∀ p, p ∈ cells ↔ ffRegion grid target rows cols start p) := by
  refine ⟨hnd, fun p => ⟨?_, ?_⟩⟩
  · intro hp
    exact hvis p ((hvc p).mpr hp)
  · rintro ⟨hgp, hrtg⟩
    have hcov : ∀ x, Relation.ReflTransGen (ffStep grid target rows cols) start x →
        x ∈ visited := by
      intro x hx
      induction hx with
      | refl => exact hstart
      | tail hseg hstep ihx =>
        obtain ⟨hgb, hgc, hmem⟩ := hstep
        exact hclosed _ ihx _ hmem hgc
    exact (hvc p).mp (hcov p hrtg)

theorem ffAux_spec (grid : Grid) (target : Option Char) (rows cols : Nat)
    (start : Int × Int) (hgood : goodCell grid target rows cols start) :
    ∀ (fuel : Nat) (visited cells queue : List (Int × Int)),
    4 * ((goodFinset grid target rows cols) \ visited.toFinset).card +
      queue.length ≤ fuel →
    (∀ p, p ∈ visited ↔ p ∈ cells) →
    cells.Nodup →
    (∀ p ∈ visited, ffRegion grid target rows cols start p) →
    (∀ q ∈ queue, goodCell grid target rows cols q →
        ffRegion grid target rows cols start q) →
    (∀ v ∈ visited, ∀ q ∈ neighborsOf v, goodCell grid target rows cols q →
        q ∈ visited ∨ q ∈ queue) →
    (start ∈ visited ∨ start ∈ queue) →
    (ffAux grid target rows cols fuel visited cells queue).Nodup ∧
    (∀ p, p ∈ ffAux grid target rows cols fuel visited cells queue ↔
        ffRegion grid target rows cols start p) := by
  intro fuel
  induction fuel with
  | zero =>
    intro visited cells queue hfuel hvc hnd hvis hq hclosed hstart
    cases queue with
    | nil =>
      have hclosed' : ∀ v ∈ visited, ∀ q ∈ neighborsOf v,
          goodCell grid target rows cols q → q ∈ visited := by
        intro v hv q hqn hgq
        rcases hclosed v hv q hqn hgq with h | h
        · exact h
        · exact absurd h (List.not_mem_nil q)
      have hstart' : start ∈ visited := by
        rcases hstart with h | h
        · exact h
        · exact absurd h (List.not_mem_nil start)
      exact ffAux_base grid target rows cols start visited cells hvc hnd hvis
        hclosed' hstart'
    | cons p rest =>
      exfalso
      simp only [List.length_cons] at hfuel
      omega
  | succ n ih =>
    intro visited cells queue hfuel hvc hnd hvis hq hclosed hstart
    cases queue with
    | nil =>
      have hclosed' : ∀ v ∈ visited, ∀ q ∈ neighborsOf v,
          goodCell grid target rows cols q → q ∈ visited := by
        intro v hv q hqn hgq
        rcases hclosed v hv q hqn hgq with h | h
        · exact h
        · exact absurd h (List.not_mem_nil q)
      have hstart' : start ∈ visited := by
        rcases hstart with h | h
        · exact h
        · exact absurd h (List.not_mem_nil start)
      exact ffAux_base grid target rows cols start visited cells hvc hnd hvis
        hclosed' hstart'
    | cons p rest =>
      simp only [List.length_cons] at hfuel
      by_cases hpv : p ∈ visited
      · simp only [ffAux]
        rw [if_pos hpv]
        refine ih visited cells rest (by omega) hvc hnd hvis
          (fun q hq2 hg => hq q (List.mem_cons_of_mem p hq2) hg) ?_ ?_
        · intro v hv q hqn hgq
          rcases hclosed v hv q hqn hgq with h | h
          · exact Or.inl h
          · rcases List.mem_cons.mp h with rfl | h'
            · exact Or.inl hpv
            · exact Or.inr h'
        · rcases hstart with h | h
          · exact Or.inl h
          · rcases List.mem_cons.mp h with rfl | h'
            · exact Or.inl hpv
            · exact Or.inr h'
      · by_cases hpb : inBoundsB rows cols p = false
        · simp only [ffAux]
          rw [if_neg hpv, if_pos hpb]
          refine ih visited cells rest (by omega) hvc hnd hvis
            (fun q hq2 hg => hq q (List.mem_cons_of_mem p hq2) hg) ?_ ?_
          · intro v hv q hqn hgq
            rcases hclosed v hv q hqn hgq with h | h
            · exact Or.inl h
            · rcases List.mem_cons.mp h with rfl | h'
              · exfalso
                rw [hgq.1] at hpb
                simp at hpb
              · exact Or.inr h'
          · rcases hstart with h | h
            · exact Or.inl h
            · rcases List.mem_cons.mp h with rfl | h'
              · exfalso
                rw [hgood.1] at hpb
                simp at hpb
              · exact Or.inr h'
        · have hpb' : inBoundsB rows cols p = true := by
            cases h : inBoundsB rows cols p
            · exact absurd h hpb
            · rfl
          by_cases hpt : cellAt grid p.1 p.2 ≠ target
          · simp only [ffAux]
            rw [if_neg hpv, if_neg hpb, if_pos hpt]
            refine ih visited cells rest (by omega) hvc hnd hvis
              (fun q hq2 hg => hq q (List.mem_cons_of_mem p hq2) hg) ?_ ?_
            · intro v hv q hqn hgq
              rcases hclosed v hv q hqn hgq with h | h
              · exact Or.inl h
              · rcases List.mem_cons.mp h with rfl | h'
                · exact absurd hgq.2 hpt
                · exact Or.inr h'
            · rcases hstart with h | h
              · exact Or.inl h
              · rcases List.mem_cons.mp h with rfl | h'
                · exact absurd hgood.2 hpt
                · exact Or.inr h'
          · have hpt' : cellAt grid p.1 p.2 = target := not_not.mp hpt
            have hgp : goodCell grid target rows cols p := ⟨hpb', hpt'⟩
            have hregp : ffRegion grid target rows cols start p :=
              hq p (List.mem_cons_self p rest) hgp
            simp only [ffAux]
            rw [if_neg hpv, if_neg hpb, if_neg hpt]
            have hpsd : p ∈ goodFinset grid target rows cols \ visited.toFinset := by
              rw [Finset.mem_sdiff]
              exact ⟨mem_goodFinset.mpr hgp, fun hc => hpv (List.mem_toFinset.mp hc)⟩
            have hcard : ((goodFinset grid target rows cols) \
                (p :: visited).toFinset).card + 1 =
                ((goodFinset grid target rows cols) \ visited.toFinset).card := by
              have h1 : (((goodFinset grid target rows cols) \
                  visited.toFinset).erase p).card =
                  ((goodFinset grid target rows cols) \ visited.toFinset).card - 1 :=
                Finset.card_erase_of_mem hpsd
              have h2 : 0 < ((goodFinset grid target rows cols) \
                  visited.toFinset).card :=
                Finset.card_pos.mpr ⟨p, hpsd⟩
              rw [List.toFinset_cons, Finset.sdiff_insert, h1]
              omega
            have hlen : (rest ++ neighborsOf p).length = rest.length + 4 := by
              simp [neighborsOf]
            refine ih (p :: visited) (cells ++ [p]) (rest ++ neighborsOf p)
              (by rw [hlen]; omega) ?_ ?_ ?_ ?_ ?_ ?_
            · intro x
              rw [List.mem_cons, List.mem_append, List.mem_singleton, ← hvc x]
              tauto
            · rw [List.nodup_append]
              refine ⟨hnd, List.nodup_singleton p, ?_⟩
              intro a ha hap
              rw [List.mem_singleton] at hap
              subst hap
              exact hpv ((hvc a).mpr ha)
            · intro x hx
              rcases List.mem_cons.mp hx with rfl | hx'
              · exact hregp
              · exact hvis x hx'
            · intro q hq2 hgq
              rcases List.mem_append.mp hq2 with h | h
              · exact hq q (List.mem_cons_of_mem p h) hgq
              · exact ⟨hgq, hregp.2.tail ⟨hgp, hgq, h⟩⟩
            · intro v hv q hqn hgq
              rcases List.mem_cons.mp hv with rfl | hv'
              · exact Or.inr (List.mem_append.mpr (Or.inr hqn))
              · rcases hclosed v hv' q hqn hgq with h | h
                · exact Or.inl (List.mem_cons_of_mem p h)
                · rcases List.mem_cons.mp h with rfl | h'
                  · exact Or.inl (List.mem_cons_self q visited)
                  · exact Or.inr (List.mem_append.mpr (Or.inl h'))
            · rcases hstart with h | h
              · exact Or.inl (List.mem_cons_of_mem p h)
              · rcases List.mem_cons.mp h with rfl | h'
                · exact Or.inl (List.mem_cons_self start visited)
                · exact Or.inr (List.mem_append.mpr (Or.inl h'))

/-- C6: for every grid and in-bounds click, the flood-fill cell list has no
duplicates and contains exactly the 4-connected region of cells showing the
clicked cell's original symbol (bounded by the grid edges); it is empty when
the selected symbol equals the clicked cell's symbol, and empty for an
out-of-bounds click. -/
theorem getFloodFillCells_correct :
    (∀ (grid : Grid) (startRow startCol : Int) (newSymbol : Char),
        0 ≤ startRow → startRow < (grid.length : Int) → 0 ≤ startCol →
        startCol < (((grid.head?.map List.length).getD 0 : Nat) : Int) →
        (cellAt grid startRow startCol ≠ some newSymbol →
          (getFloodFillCells grid startRow startCol newSymbol).Nodup ∧
          ∀ p, p ∈ getFloodFillCells grid startRow startCol newSymbol ↔
            ffRegion grid (cellAt grid startRow startCol) grid.length
              ((grid.head?.map List.length).getD 0) (startRow, startCol) p) ∧
        (cellAt grid startRow startCol = some newSymbol →
          getFloodFillCells grid startRow startCol newSymbol = [])) ∧
    (∀ (grid : Grid) (startRow startCol : Int) (newSymbol : Char),
        startRow < 0 ∨ (grid.length : Int) ≤ startRow ∨ startCol < 0 ∨
          (((grid.head?.map List.length).getD 0 : Nat) : Int) ≤ startCol →
        getFloodFillCells grid startRow startCol newSymbol = []) := by
  constructor
  · intro grid sr0 sc0 sym h1 h2 h3 h4
    have hnotoob : ¬(sr0 < 0 ∨ sr0 ≥ (grid.length : Int) ∨ sc0 < 0 ∨
        sc0 ≥ (((grid.head?.map List.length).getD 0 : Nat) : Int)) := by
      push_neg
      exact ⟨h1, h2, h3, h4⟩
    constructor
    · intro hne
      unfold getFloodFillCells
      rw [if_neg hnotoob, if_neg hne]
      have hbounds : inBoundsB grid.length ((grid.head?.map List.length).getD 0)
          (sr0, sc0) = true := by
        unfold inBoundsB
        rw [decide_eq_true_eq]
        exact ⟨h1, h2, h3, h4⟩
      have hgood : goodCell grid (cellAt grid sr0 sc0) grid.length
          ((grid.head?.map List.length).getD 0) (sr0, sc0) := ⟨hbounds, rfl⟩
      refine ffAux_spec grid (cellAt grid sr0 sc0) grid.length
        ((grid.head?.map List.length).getD 0) (sr0, sc0) hgood
        (4 * grid.length * ((grid.head?.map List.length).getD 0) + 1)
        [] [] [(sr0, sc0)] ?_ (fun p => Iff.rfl) List.nodup_nil
        (fun p hp => absurd hp (List.not_mem_nil p)) ?_
        (fun v hv => absurd hv (List.not_mem_nil v))
        (Or.inr (List.mem_singleton_self _))
      · simp only [List.toFinset_nil, Finset.sdiff_empty, List.length_singleton]
        have := goodFinset_card_le grid (cellAt grid sr0 sc0) grid.length
          ((grid.head?.map List.length).getD 0)
        have hmul : 4 * (grid.length * ((grid.head?.map List.length).getD 0)) =
            4 * grid.length * ((grid.head?.map List.length).getD 0) := by ring
        omega
      · intro q hq2 hg
        rw [List.mem_singleton] at hq2
        subst hq2
        exact ⟨hg, Relation.ReflTransGen.refl⟩
    · intro heq
      unfold getFloodFillCells
      rw [if_neg hnotoob, if_pos heq]
  · intro grid sr0 sc0 sym h
    unfold getFloodFillCells
    rw [if_pos h]

/-- Witness for `getFloodFillCells_correct` at concrete inputs: a 2×2 grid
where the top row and bottom-right cell share the clicked symbol. -/
theorem getFloodFillCells_correct_witness :
    ((getFloodFillCells [['a', 'a'], ['b', 'a']] 0 0 'b').Nodup ∧
      ∀ p, p ∈ getFloodFillCells [['a', 'a'], ['b', 'a']] 0 0 'b' ↔
        ffRegion [['a', 'a'], ['b', 'a']] (cellAt [['a', 'a'], ['b', 'a']] 0 0) 2 2
          (0, 0) p) ∧
    getFloodFillCells [['a', 'a'], ['b', 'a']] 0 0 'a' = [] ∧
    getFloodFillCells [['a', 'a'], ['b', 'a']] 5 0 'b' = [] := by
  refine ⟨?_, ?_, ?_⟩
  · exact (getFloodFillCells_correct.1 [['a', 'a'], ['b', 'a']] 0 0 'b'
      (by decide) (by decide) (by decide) (by decide)).1 (by decide)
  · exact (getFloodFillCells_correct.1 [['a', 'a'], ['b', 'a']] 0 0 'a'
      (by decide) (by decide) (by decide) (by decide)).2 (by decide)
  · exact getFloodFillCells_correct.2 [['a', 'a'], ['b', 'a']] 5 0 'b'
      (by decide)

end Catalyst
